import Mathlib

/-! Balloon hashing: the hash-state lifecycle of `libballoon/hash_state.c`.

A shallow embedding of `hash_state.c` (with the option record of
`include/baghash.h`) and theorems about it.

Conventions of the embedding.

* Bytes are natural numbers, byte strings are `List Nat`.
* `size_t` is 64 bits wide and `unsigned int` 32 bits wide; every arithmetic
  operation the source performs on them is reduced modulo `SIZE_MOD`
  respectively `UINT_MOD`.  Values handed over by a collaborator are stored as
  they come (they already have the C type).
* A block pointer is its byte offset from `s->buffer`.  An access inside the
  allocation is the access of the C program.  An access that leaves the
  allocation is undefined in C; here a read yields only the bytes that exist
  and a write is clipped, so that every function is total.  What is proved
  about the bytes read or written is proved for accesses inside the
  allocation (`buffer_sized`, `accesses_in_bounds`, `pipeline_in_bounds`).
* The collaborators that are not part of `hash_state.c` (the bit stream, the
  compressor, `options_n_blocks`, the two non-zero error codes) are the fields
  of `primitives`; every function of the file takes them as its first argument.
* Every function returns a `result`: the status, the hash state it leaves, the
  bytes written to the caller's output (if any), and the list of calls it made
  to the block accessor, the allocator, `expand` and the two mixing primitives.
-/

namespace Balloon

/-! ## Machine integers -/

/-- Number of values of `size_t` (and of `uint64_t`). -/
def SIZE_MOD : Nat := 2 ^ 64

/-- Number of values of `unsigned int`. -/
def UINT_MOD : Nat := 2 ^ 32

/-! ## `baghash.h` -/

/-- The C enumeration `comp_method`, its end marker included. -/
inductive comp_method where
  | COMP__KECCAK_1600
  | COMP__ARGON_BLAKE2B
  | COMP__SHA_512
  | COMP__END
  deriving DecidableEq, Repr

/-- The C enumeration `mix_method`. -/
inductive mix_method where
  | MIX__BAGHASH_ONE_BUFFER
  deriving DecidableEq, Repr

/-- The C record `baghash_options`.  The three `unsigned int` fields hold
values below `UINT_MOD`. -/
structure baghash_options where
  m_cost : Nat
  t_cost : Nat
  xor_then_hash : Bool
  n_neighbors : Nat
  comp : comp_method
  mix : mix_method
  deriving DecidableEq, Repr

/-! ## Status codes -/

/-- Modelled from the spec: `errors.h` is not among the sources, and the spec
tells success apart from the kinds of error without naming values.  Success
is taken to be the zero status, the one every call site of the source lets
through with `if ((error = ...)) return error;` before it reaches
`return ERROR_NONE`. -/
def ERROR_NONE : Int := 0

/-- How a call ends: it returns a status, or an `assert` stops the program. -/
inductive outcome where
  | returned (code : Int)
  | aborted
  deriving DecidableEq, Repr

/-! ## Collaborators -/

/-- The functions and constants `hash_state.c` uses and does not define.
`BS` is the content of a `struct bitstream`.  A function that works in place
on a stream takes the old content and returns the status with the new content.
`compress` receives the contents of its input blocks, in order, and returns
the status with the bytes it stores at its output block; `expand` receives the
content of the buffer and returns the status with the content it leaves there.
The two initialisers start from an uninitialised record and so do not take an
old content. -/
structure primitives (BS : Type) where
  ERROR_MALLOC : Int
  ERROR_CANNOT_EXTRACT_BEFORE_MIX : Int
  options_n_blocks : baghash_options → Nat
  compress_block_size : comp_method → Nat
  compress : comp_method → List (List Nat) → Int × List Nat
  expand : List Nat → Nat → comp_method → Int × List Nat
  bitstream_init : Int × BS
  bitstream_init_with_seed : List Nat → Int × BS
  bitstream_seed_add : BS → List Nat → Int × BS
  bitstream_seed_finalize : BS → Int × BS
  bitstream_fill_buffer : BS → Nat → Int × BS × List Nat
  bitstream_rand_int : BS → Nat → Int × BS × Nat
  bitstream_free : BS → Int

/-! ## The hash state -/

/-- The C record `hash_state`, with the fields `hash_state.c` uses.  `buffer`
is `none` for a null pointer and otherwise the bytes of the allocation; `opts`
is the option record the state points to. -/
structure hash_state (BS : Type) where
  n_blocks : Nat
  block_size : Nat
  has_mixed : Bool
  buffer : Option (List Nat)
  bstream : BS
  opts : baghash_options
  deriving DecidableEq, Repr

/-- A call observed during a run. -/
inductive event where
  | malloc (size : Nat)
  | block_index (i : Nat)
  | rand_int (max : Nat)
  | compress (n_blocks_to_hash : Nat)
  | expand (n_blocks : Nat) (comp : comp_method)
  deriving DecidableEq, Repr

/-- What a function of `hash_state.c` leaves behind. -/
structure result (BS : Type) where
  status : outcome
  state : hash_state BS
  out : Option (List Nat)
  trace : List event
  deriving DecidableEq, Repr

/-! ## Memory -/

/-- The bytes of the allocation (none behind a null pointer). -/
def buffer_bytes {BS : Type} (s : hash_state BS) : List Nat :=
  s.buffer.getD []

/-- Store `data` at offset `p` of `buf`.  A store that ends inside the
allocation (`p + data.length ≤ buf.length`) is the store of the C program.  A
store that runs past the end, which C leaves undefined, is cut at the end of
`buf`, so that the function is total; what is proved about stored bytes is
about stores inside the allocation. -/
def write_bytes (buf : List Nat) (p : Nat) (data : List Nat) : List Nat :=
  buf.take p ++ data.take (buf.length - p) ++ buf.drop (p + data.length)

/-- The `block_size` bytes found at block pointer `p`.  A read that ends
inside the allocation (`p + block_size` at most its length) is the read of the
C program.  A read that runs past the end, which C leaves undefined, yields
the bytes of the allocation from `p` on and no others, so that the function is
total; what is proved about bytes read is about reads inside the allocation. -/
def read_block {BS : Type} (s : hash_state BS) (p : Nat) : List Nat :=
  ((buffer_bytes s).drop p).take s.block_size

/-- The state after `data` has been stored at block pointer `p`. -/
def write_block {BS : Type} (s : hash_state BS) (p : Nat) (data : List Nat) :
    hash_state BS :=
  { s with buffer := s.buffer.map (fun buf => write_bytes buf p data) }

/-! ## `hash_state.c` -/

/-- C `block_index`: `s->buffer + (s->block_size * i)`, as an offset. -/
def block_index {BS : Type} (s : hash_state BS) (i : Nat) : Nat :=
  (s.block_size * i) % SIZE_MOD

/-- The index `s->n_blocks - 1` that `block_last` hands to `block_index`. -/
def block_last_index {BS : Type} (s : hash_state BS) : Nat :=
  (s.n_blocks + SIZE_MOD - 1) % SIZE_MOD

/-- C `block_last`. -/
def block_last {BS : Type} (s : hash_state BS) : Nat :=
  block_index s (block_last_index s)

/-- C `hash_state_init`.  The old content `_s` of the record is overwritten
field by field; `malloc` is the behaviour of the allocator at this call (the
bytes of the fresh region, whatever they are, or `none` for a null pointer). -/
def hash_state_init {BS : Type} (env : primitives BS) (_s : hash_state BS)
    (opts : baghash_options) (salt : List Nat)
    (malloc : Nat → Option (List Nat)) : result BS :=
  let d := env.options_n_blocks opts
  let n := if d % 2 ≠ 0 then (d + 1) % SIZE_MOD else d
  let bsz := env.compress_block_size opts.comp
  let size := (n * bsz) % SIZE_MOD
  let buf := malloc size
  let r := env.bitstream_init_with_seed salt
  let s1 : hash_state BS :=
    { n_blocks := n, block_size := bsz, has_mixed := false,
      buffer := buf, bstream := r.2, opts := opts }
  if r.1 ≠ 0 then
    { status := outcome.returned r.1, state := s1, out := none,
      trace := [event.malloc size] }
  else
    { status := outcome.returned (if buf.isSome then ERROR_NONE else env.ERROR_MALLOC),
      state := s1, out := none, trace := [event.malloc size] }

/-- The block count `hash_state_init` stores: the derived count, plus one
when it is odd. -/
def init_n_blocks {BS : Type} (env : primitives BS) (opts : baghash_options) : Nat :=
  if env.options_n_blocks opts % 2 ≠ 0 then (env.options_n_blocks opts + 1) % SIZE_MOD
  else env.options_n_blocks opts

/-- The size `hash_state_init` hands to `malloc`. -/
def init_size {BS : Type} (env : primitives BS) (opts : baghash_options) : Nat :=
  (init_n_blocks env opts * env.compress_block_size opts.comp) % SIZE_MOD

/-- What `hash_state_free` reports: the status, and whether `free` was reached. -/
structure free_result where
  status : Int
  buffer_freed : Bool
  deriving DecidableEq, Repr

/-- C `hash_state_free`. -/
def hash_state_free {BS : Type} (env : primitives BS) (s : hash_state BS) :
    free_result :=
  let e := env.bitstream_free s.bstream
  if e ≠ 0 then { status := e, buffer_freed := false }
  else { status := ERROR_NONE, buffer_freed := true }

/-- C `fill_bytes_from_strings`: the status and the bytes stored at
`block_start` (`none` when `bitstream_fill_buffer` was not reached).  The
hash state argument is unused, as in the source. -/
def fill_bytes_from_strings {BS : Type} (env : primitives BS) (_s : hash_state BS)
    (bytes_to_fill : Nat) (inp : List Nat) (salt : List Nat) :
    Int × Option (List Nat) :=
  let r0 := env.bitstream_init
  if r0.1 ≠ 0 then (r0.1, none) else
  let r1 := env.bitstream_seed_add r0.2 salt
  if r1.1 ≠ 0 then (r1.1, none) else
  let r2 := env.bitstream_seed_add r1.2 inp
  if r2.1 ≠ 0 then (r2.1, none) else
  let r3 := env.bitstream_seed_finalize r2.2
  if r3.1 ≠ 0 then (r3.1, none) else
  let r4 := env.bitstream_fill_buffer r3.2 bytes_to_fill
  if r4.1 ≠ 0 then (r4.1, some r4.2.2) else
  let e := env.bitstream_free r4.2.1
  if e ≠ 0 then (e, some r4.2.2) else
  (ERROR_NONE, some r4.2.2)

/-- C `hash_state_fill`.  The hexadecimal dump of block 0 that the source
prints afterwards goes to the standard output and touches no state; it is
left out. -/
def hash_state_fill {BS : Type} (env : primitives BS) (s : hash_state BS)
    (inp : List Nat) (salt : List Nat) : result BS :=
  let r := fill_bytes_from_strings env s s.block_size inp salt
  let s1 := match r.2 with
    | none => s
    | some data => write_block s 0 data
  if r.1 ≠ 0 then
    { status := outcome.returned r.1, state := s1, out := none, trace := [] }
  else
    let e := env.expand (buffer_bytes s1) s1.n_blocks s1.opts.comp
    let s2 := { s1 with buffer := s1.buffer.map (fun _ => e.2) }
    if e.1 ≠ 0 then
      { status := outcome.returned e.1, state := s2, out := none,
        trace := [event.expand s1.n_blocks s1.opts.comp] }
    else
      { status := outcome.returned ERROR_NONE, state := s2, out := none,
        trace := [event.expand s1.n_blocks s1.opts.comp] }

/-- The value `n_blocks_to_hash` of `hash_state_mix`: the `unsigned int` sum
`s->opts->n_neighbors + 2`, converted to `size_t`. -/
def n_blocks_to_hash {BS : Type} (s : hash_state BS) : Nat :=
  (s.opts.n_neighbors + 2) % UINT_MOD

/-- The pointer `prev_block` of `hash_state_mix` for block `i`:
`i ? cur_block - s->block_size : block_last (s)`. -/
def prev_block {BS : Type} (s : hash_state BS) (i : Nat) : Nat :=
  if i ≠ 0 then (block_index s i + (SIZE_MOD - s.block_size % SIZE_MOD)) % SIZE_MOD
  else block_last s

/-- The accessor calls `hash_state_mix` makes for `cur_block` and
`prev_block` of block `i`: `block_index (s, i)`, and through `block_last` a
second one when `i` is zero. -/
def cur_prev_trace {BS : Type} (s : hash_state BS) (i : Nat) : List event :=
  if i ≠ 0 then [event.block_index i]
  else [event.block_index i, event.block_index (block_last_index s)]

/-- What the neighbour loop leaves: the status of the last draw, the stream,
the indices drawn so far, and the draws made. -/
structure draws (BS : Type) where
  error : Int
  bstream : BS
  neighbors : List Nat
  trace : List event

/-- The inner loop of `hash_state_mix`,
`for (n = 2; n < n_blocks_to_hash; n++)`, with `count` rounds to go: each
round draws one index below `max` and records it, and a failing draw ends
the loop with its status. -/
def pick_neighbors {BS : Type} (env : primitives BS) (max : Nat) :
    Nat → BS → draws BS
  | 0, st => { error := 0, bstream := st, neighbors := [], trace := [] }
  | count + 1, st =>
    let r := env.bitstream_rand_int st max
    if r.1 ≠ 0 then
      { error := r.1, bstream := r.2.1, neighbors := [],
        trace := [event.rand_int max] }
    else
      let rest := pick_neighbors env max count r.2.1
      { error := rest.error, bstream := rest.bstream,
        neighbors := r.2.2 :: rest.neighbors,
        trace := event.rand_int max :: event.block_index r.2.2 :: rest.trace }

/-- The body of the outer loop of `hash_state_mix` for block `i`.  The array
`blocks` has `n_blocks_to_hash` entries: `compress` is given that many
pointers, the first of `prev_block`, `cur_block` and the neighbours drawn.
Whatever `compress` stores at `cur_block` is in the buffer afterwards, also
when it reports an error. -/
def mix_block {BS : Type} (env : primitives BS) (s : hash_state BS) (i : Nat) :
    result BS :=
  let cur_block := block_index s i
  let count := n_blocks_to_hash s
  let prev := prev_block s i
  let t0 := cur_prev_trace s i
  let d := pick_neighbors env s.n_blocks (count - 2) s.bstream
  let s1 := { s with bstream := d.bstream }
  if d.error ≠ 0 then
    { status := outcome.returned d.error, state := s1, out := none,
      trace := t0 ++ d.trace }
  else
    let blocks := ([prev, cur_block] ++ d.neighbors.map (block_index s)).take count
    if s1.block_size ≠ env.compress_block_size s1.opts.comp then
      { status := outcome.aborted, state := s1, out := none, trace := t0 ++ d.trace }
    else
      let c := env.compress s1.opts.comp (blocks.map (read_block s1))
      let s2 := write_block s1 cur_block c.2
      { status := outcome.returned c.1, state := s2, out := none,
        trace := t0 ++ d.trace ++ [event.compress count] }

/-- The outer loop of `hash_state_mix`,
`for (i = 0; i < s->n_blocks; i++)`, with `todo` blocks to go from block `i`
on; after the last block `has_mixed` is set and `ERROR_NONE` returned. -/
def mix_loop {BS : Type} (env : primitives BS) :
    Nat → Nat → hash_state BS → result BS
  | 0, _, s =>
    { status := outcome.returned ERROR_NONE, state := { s with has_mixed := true },
      out := none, trace := [] }
  | todo + 1, i, s =>
    let r := mix_block env s i
    if r.status ≠ outcome.returned 0 then r
    else
      let rest := mix_loop env todo (i + 1) r.state
      { rest with trace := r.trace ++ rest.trace }

/-- C `hash_state_mix`. -/
def hash_state_mix {BS : Type} (env : primitives BS) (s : hash_state BS) :
    result BS :=
  mix_loop env s.n_blocks 0 s

/-- C `hash_state_extract`. -/
def hash_state_extract {BS : Type} (env : primitives BS) (s : hash_state BS)
    (outlen : Nat) : result BS :=
  if s.has_mixed = false then
    { status := outcome.returned env.ERROR_CANNOT_EXTRACT_BEFORE_MIX, state := s,
      out := none, trace := [] }
  else
    let r := fill_bytes_from_strings env s outlen (read_block s (block_last s)) []
    { status := outcome.returned r.1, state := s, out := r.2,
      trace := [event.block_index (block_last_index s)] }

/-! ## Sequences of calls on one hash state -/

/-- A call a client can make on an initialised hash state. -/
inductive op where
  | fill (inp : List Nat) (salt : List Nat)
  | mix
  | extract (outlen : Nat)
  deriving DecidableEq, Repr

/-- The call `o` made on the state `s`. -/
def apply_op {BS : Type} (env : primitives BS) (s : hash_state BS) : op → result BS
  | op.fill inp salt => hash_state_fill env s inp salt
  | op.mix => hash_state_mix env s
  | op.extract outlen => hash_state_extract env s outlen

/-- The state after the calls `ops`, made one after the other whatever their
statuses. -/
def run_ops {BS : Type} (env : primitives BS) (s : hash_state BS) :
    List op → hash_state BS
  | [] => s
  | o :: os => run_ops env (apply_op env s o).state os

/-! ## The reference mixing pass

The pass as the specification words it, on the array of blocks: for
`i = 0, 1, ..., n_blocks - 1` in increasing order, block `i` is overwritten
with `compress` applied to the previous block (the last one when `i` is
zero), block `i`, and the blocks at the next `k` values of the random stream,
each drawn with bound `n_blocks`. -/

/-- The next `k` values of the stream with bound `n`, and the stream after
them. -/
def reference_draws {BS : Type} (env : primitives BS) (n : Nat) :
    Nat → BS → List Nat × BS
  | 0, st => ([], st)
  | k + 1, st =>
    let r := env.bitstream_rand_int st n
    let rest := reference_draws env n k r.2.1
    (r.2.2 :: rest.1, rest.2)

/-- Step `i` of the reference pass with `k` neighbours: only block `i` is
replaced. -/
def reference_step {BS : Type} (env : primitives BS) (comp : comp_method) (k : Nat)
    (i : Nat) (x : List (List Nat) × BS) : List (List Nat) × BS :=
  let previous := if i = 0 then x.1.getD (x.1.length - 1) [] else x.1.getD (i - 1) []
  let d := reference_draws env x.1.length k x.2
  let inputs := previous :: x.1.getD i [] :: d.1.map (fun r => x.1.getD r [])
  (x.1.set i (env.compress comp inputs).2, d.2)

/-- The steps `i`, `i + 1`, ... of the reference pass, `todo` of them. -/
def reference_pass {BS : Type} (env : primitives BS) (comp : comp_method) (k : Nat) :
    Nat → Nat → List (List Nat) × BS → List (List Nat) × BS
  | 0, _, x => x
  | todo + 1, i, x =>
    reference_pass env comp k todo (i + 1) (reference_step env comp k i x)

/-- The reference pass over all blocks. -/
def reference_mix {BS : Type} (env : primitives BS) (comp : comp_method) (k : Nat)
    (x : List (List Nat) × BS) : List (List Nat) × BS :=
  reference_pass env comp k x.1.length 0 x

/-- The buffer of a hash state as its array of `n_blocks` blocks. -/
def blocks_of {BS : Type} (s : hash_state BS) : List (List Nat) :=
  (List.range s.n_blocks).map (fun i => read_block s (s.block_size * i))

/-! ## Contracts of the collaborators -/

/-- Every primitive of the byte-deriving stream reports success. -/
def stream_primitives_succeed {BS : Type} (env : primitives BS) : Prop :=
  env.bitstream_init.1 = 0 ∧
  (∀ st b, (env.bitstream_seed_add st b).1 = 0) ∧
  (∀ st, (env.bitstream_seed_finalize st).1 = 0) ∧
  (∀ st n, (env.bitstream_fill_buffer st n).1 = 0) ∧
  (∀ st, env.bitstream_free st = 0)

/-- The stream stores exactly the number of bytes it is asked for. -/
def fill_buffer_exact {BS : Type} (env : primitives BS) : Prop :=
  ∀ st n, (env.bitstream_fill_buffer st n).2.2.length = n

/-- A successful bounded draw is strictly below its bound. -/
def rand_int_below {BS : Type} (env : primitives BS) : Prop :=
  ∀ st max, (env.bitstream_rand_int st max).1 = 0 →
    (env.bitstream_rand_int st max).2.2 < max

/-- The compressor stores exactly one block. -/
def compress_exact {BS : Type} (env : primitives BS) : Prop :=
  ∀ c blocks, (env.compress c blocks).2.length = env.compress_block_size c

/-- The buffer of `s` is an allocation of `n_blocks` blocks whose size did not
wrap, its block size is that of the compression method, and the neighbour
count plus two fits an `unsigned int`. -/
def well_sized {BS : Type} (env : primitives BS) (s : hash_state BS) : Prop :=
  (∃ buf, s.buffer = some buf ∧ buf.length = s.n_blocks * s.block_size) ∧
  s.n_blocks * s.block_size < SIZE_MOD ∧
  s.block_size = env.compress_block_size s.opts.comp ∧
  s.opts.n_neighbors + 2 < UINT_MOD

/-- A concrete set of collaborators. -/
def toy_primitives (derive : baghash_options → Nat) (bsz : Nat) : primitives Nat :=
  { ERROR_MALLOC := 1,
    ERROR_CANNOT_EXTRACT_BEFORE_MIX := 2,
    options_n_blocks := derive,
    compress_block_size := fun _ => bsz,
    compress := fun _ blocks =>
      (0, List.replicate bsz ((blocks.flatten.sum + blocks.length) % 256)),
    expand := fun buf n _ =>
      (0, buf.take bsz ++
        (List.range (buf.length - bsz)).map (fun k => ((buf.take bsz).sum + n + k) % 256)),
    bitstream_init := (0, 0),
    bitstream_init_with_seed := fun salt => (0, salt.sum),
    bitstream_seed_add := fun st b => (0, 2 * st + b.sum + 1),
    bitstream_seed_finalize := fun st => (0, st + 1),
    bitstream_fill_buffer := fun st n =>
      (0, st + n, (List.range n).map (fun k => (st + k) % 256)),
    bitstream_rand_int := fun st max => (if max = 0 then 3 else 0, st + 1, st % max),
    bitstream_free := fun _ => 0 }

/-- The instance with one block per unit of space cost and one-byte blocks. -/
def toy_env : primitives Nat :=
  toy_primitives (fun o => o.m_cost) 1

/-- Options with space cost `m`, time cost `t` and `k` neighbours. -/
def toy_options (m t k : Nat) : baghash_options :=
  { m_cost := m, t_cost := t, xor_then_hash := false, n_neighbors := k,
    comp := comp_method.COMP__KECCAK_1600, mix := mix_method.MIX__BAGHASH_ONE_BUFFER }

/-- An allocator that always succeeds and returns a region of `junk` bytes. -/
def toy_malloc (junk : Nat) : Nat → Option (List Nat) :=
  fun n => some (List.replicate n junk)

/-- Some old content of a hash-state record. -/
def stale_state (junk : Nat) : hash_state Nat :=
  { n_blocks := junk, block_size := junk, has_mixed := true, buffer := none,
    bstream := junk, opts := toy_options junk junk junk }

/-- A hash state of `n` one-byte blocks numbered from zero, `k` neighbours. -/
def toy_state (n k : Nat) (mixed : Bool) : hash_state Nat :=
  { n_blocks := n, block_size := 1, has_mixed := mixed,
    buffer := some (List.range n), bstream := 0, opts := toy_options n 1 k }

/-! ## The top-level construction -/

/-- Modelled from the spec: the driver that repeats the mixing pass is not
among the sources.  It calls `hash_state_mix` `t` times, one after the other,
and stops at the first call that does not return `ERROR_NONE`. -/
def mix_repeat {BS : Type} (env : primitives BS) :
    Nat → hash_state BS → outcome × hash_state BS
  | 0, s => (outcome.returned ERROR_NONE, s)
  | t + 1, s =>
    let r := hash_state_mix env s
    if r.status ≠ outcome.returned 0 then (r.status, r.state)
    else mix_repeat env t r.state

/-- The first `i` rounds of the outer loop of `hash_state_mix`, for the blocks
`0` to `i - 1` in this order, up to and including the first round whose
status is not zero.  The pass itself is these rounds for `i = n_blocks`,
followed, if none failed, by the setting of `has_mixed`. -/
def mix_upto {BS : Type} (env : primitives BS) (s : hash_state BS) : Nat → result BS
  | 0 => { status := outcome.returned 0, state := s, out := none, trace := [] }
  | i + 1 =>
    let r := mix_upto env s i
    if r.status ≠ outcome.returned 0 then r
    else
      let b := mix_block env r.state i
      { b with trace := r.trace ++ b.trace }

/-- The contents of the blocks that the round of block `i` hands to
`compress`: those behind the first `n_blocks_to_hash` pointers of
`prev_block`, `cur_block` and the neighbours drawn in this round. -/
def compress_inputs {BS : Type} (env : primitives BS) (s : hash_state BS) (i : Nat) :
    List (List Nat) :=
  (([prev_block s i, block_index s i] ++
      (pick_neighbors env s.n_blocks (n_blocks_to_hash s - 2) s.bstream).neighbors.map
        (block_index s)).take (n_blocks_to_hash s)).map (read_block s)

/-- The number of draws in a list of calls. -/
def count_draws : List event → Nat
  | [] => 0
  | event.rand_int _ :: t => count_draws t + 1
  | _ :: t => count_draws t

/-- The buffer of `s` is an allocation of `n_blocks` blocks whose size did not
wrap, and its block size is that of the compression method. -/
def buffer_sized {BS : Type} (env : primitives BS) (s : hash_state BS) : Prop :=
  (∃ buf, s.buffer = some buf ∧ buf.length = s.n_blocks * s.block_size) ∧
  s.n_blocks * s.block_size < SIZE_MOD ∧
  s.block_size = env.compress_block_size s.opts.comp

/-! ## A small instance with faults -/

/-- The small instance `toy_env`, except that seeding the stream of the hash
state returns `seed_status`, a draw fails with status 7 when the stream
counter is `bad_draw`, `compress` returns `compress_status`, and releasing a
stream returns `free_status`. -/
def faulty_primitives (bad_draw : Nat) (seed_status compress_status free_status : Int) :
    primitives Nat :=
  { toy_env with
    bitstream_init_with_seed := fun salt => (seed_status, salt.sum),
    bitstream_rand_int := fun st max =>
      (if max = 0 ∨ st = bad_draw then 7 else 0, st + 1, st % max),
    compress := fun _ blocks =>
      (compress_status, List.replicate 1 ((blocks.flatten.sum + blocks.length) % 256)),
    bitstream_free := fun _ => free_status }

/-- An allocator that has no memory left. -/
def null_malloc : Nat → Option (List Nat) :=
  fun _ => none

/-! ## Runs that stay inside the buffer -/

/-- The calls on `s` stay inside its buffer and inside the array `blocks` of
`hash_state_mix`: the buffer is an allocation of `n_blocks` blocks whose size
did not wrap, there is at least one block, block 0 (which `hash_state_fill`
stores) fits, every block pointer that `hash_state_mix` and
`hash_state_extract` compute on `s`, through `block_index` or as `prev_block`,
leaves room for a whole block before the end of the allocation, and the array
of `n_blocks_to_hash` pointers has room for the two that every round stores
first. -/
def accesses_in_bounds {BS : Type} (env : primitives BS) (s : hash_state BS)
    (outlen : Nat) : Prop :=
  buffer_sized env s ∧ s.n_blocks ≠ 0 ∧
  block_index s 0 + s.block_size ≤ (buffer_bytes s).length ∧
  (∀ j : Nat, event.block_index j ∈ (hash_state_mix env s).trace →
    block_index s j + s.block_size ≤ (buffer_bytes s).length) ∧
  (∀ i : Nat, i < s.n_blocks → prev_block s i + s.block_size ≤ (buffer_bytes s).length) ∧
  (∀ j : Nat, event.block_index j ∈ (hash_state_extract env s outlen).trace →
    block_index s j + s.block_size ≤ (buffer_bytes s).length) ∧
  2 ≤ n_blocks_to_hash s

/-- A run of the top-level construction stays inside its buffer: if
`hash_state_init` returns `ERROR_NONE`, the state it leaves, on which
`hash_state_fill` is called, and, if that returns `ERROR_NONE`, the state after
any number of successful passes, on which the next pass or
`hash_state_extract` is called, are states on which the calls stay inside the
buffer. -/
def pipeline_in_bounds {BS : Type} (env : primitives BS) (s : hash_state BS)
    (opts : baghash_options) (inp salt : List Nat) (outlen : Nat)
    (malloc : Nat → Option (List Nat)) : Prop :=
  (hash_state_init env s opts salt malloc).status = outcome.returned ERROR_NONE →
    accesses_in_bounds env (hash_state_init env s opts salt malloc).state outlen ∧
    ((hash_state_fill env (hash_state_init env s opts salt malloc).state inp salt).status
        = outcome.returned ERROR_NONE →
      ∀ t : Nat,
        (mix_repeat env t
          (hash_state_fill env (hash_state_init env s opts salt malloc).state
            inp salt).state).1 = outcome.returned ERROR_NONE →
        accesses_in_bounds env (mix_repeat env t
          (hash_state_fill env (hash_state_init env s opts salt malloc).state
            inp salt).state).2 outlen)

/-! # Theorems -/

/-! ## Memory lemmas -/

theorem write_bytes_length (buf : List Nat) (p : Nat) (data : List Nat) :
    (write_bytes buf p data).length = buf.length := by
  simp only [write_bytes, List.length_append, List.length_take, List.length_drop]
  omega

theorem write_block_fields {BS : Type} (s : hash_state BS) (p : Nat) (data : List Nat) :
    (write_block s p data).n_blocks = s.n_blocks ∧
    (write_block s p data).block_size = s.block_size ∧
    (write_block s p data).opts = s.opts ∧
    (write_block s p data).has_mixed = s.has_mixed ∧
    (write_block s p data).bstream = s.bstream ∧
    (buffer_bytes (write_block s p data)).length = (buffer_bytes s).length := by
  refine ⟨rfl, rfl, rfl, rfl, rfl, ?_⟩
  cases hb : s.buffer with
  | none => simp [write_block, buffer_bytes, hb]
  | some buf => simp [write_block, buffer_bytes, hb, write_bytes_length]

/-! ## Fields that the calls leave alone -/

theorem mix_block_fields {BS : Type} (env : primitives BS) (s : hash_state BS) (i : Nat) :
    (mix_block env s i).state.n_blocks = s.n_blocks ∧
    (mix_block env s i).state.block_size = s.block_size ∧
    (mix_block env s i).state.opts = s.opts ∧
    (mix_block env s i).state.has_mixed = s.has_mixed ∧
    (buffer_bytes (mix_block env s i).state).length = (buffer_bytes s).length := by
  unfold mix_block
  simp only []
  split_ifs
  · exact ⟨rfl, rfl, rfl, rfl, rfl⟩
  · exact ⟨rfl, rfl, rfl, rfl, rfl⟩
  · refine ⟨rfl, rfl, rfl, rfl, ?_⟩
    exact (write_block_fields _ _ _).2.2.2.2.2

theorem mix_loop_fields {BS : Type} (env : primitives BS) (todo : Nat) :
    ∀ (i : Nat) (s : hash_state BS),
      (mix_loop env todo i s).state.n_blocks = s.n_blocks ∧
      (mix_loop env todo i s).state.block_size = s.block_size ∧
      (mix_loop env todo i s).state.opts = s.opts ∧
      (buffer_bytes (mix_loop env todo i s).state).length = (buffer_bytes s).length := by
  induction todo with
  | zero => intro i s; exact ⟨rfl, rfl, rfl, rfl⟩
  | succ k ih =>
    intro i s
    have hb := mix_block_fields env s i
    simp only [mix_loop]
    split_ifs
    · exact ⟨hb.1, hb.2.1, hb.2.2.1, hb.2.2.2.2⟩
    · have h := ih (i + 1) (mix_block env s i).state
      exact ⟨h.1.trans hb.1, h.2.1.trans hb.2.1, h.2.2.1.trans hb.2.2.1,
        h.2.2.2.trans hb.2.2.2.2⟩

theorem mix_loop_has_mixed {BS : Type} (env : primitives BS) (todo : Nat) :
    ∀ (i : Nat) (s : hash_state BS),
      ((mix_loop env todo i s).state.has_mixed = true ↔
        (s.has_mixed = true ∨ (mix_loop env todo i s).status = outcome.returned ERROR_NONE)) := by
  induction todo with
  | zero => intro i s; simp [mix_loop]
  | succ k ih =>
    intro i s
    have hb := (mix_block_fields env s i).2.2.2.1
    simp only [mix_loop]
    split_ifs with h
    · rw [hb]
      constructor
      · intro h1; exact Or.inl h1
      · rintro (h1 | h1)
        · exact h1
        · exact absurd h1 h
    · have h2 := ih (i + 1) (mix_block env s i).state
      rw [hb] at h2
      exact h2

theorem fill_fields {BS : Type} (env : primitives BS) (s : hash_state BS)
    (inp salt : List Nat) :
    (hash_state_fill env s inp salt).state.n_blocks = s.n_blocks ∧
    (hash_state_fill env s inp salt).state.block_size = s.block_size ∧
    (hash_state_fill env s inp salt).state.opts = s.opts ∧
    (hash_state_fill env s inp salt).state.has_mixed = s.has_mixed ∧
    (hash_state_fill env s inp salt).state.bstream = s.bstream := by
  unfold hash_state_fill
  simp only []
  cases (fill_bytes_from_strings env s s.block_size inp salt).2 <;>
    (simp only []; split_ifs <;> exact ⟨rfl, rfl, rfl, rfl, rfl⟩)

theorem extract_state {BS : Type} (env : primitives BS) (s : hash_state BS) (outlen : Nat) :
    (hash_state_extract env s outlen).state = s := by
  unfold hash_state_extract
  split_ifs <;> rfl

theorem apply_op_fields {BS : Type} (env : primitives BS) (s : hash_state BS) (o : op) :
    (apply_op env s o).state.n_blocks = s.n_blocks ∧
    (apply_op env s o).state.block_size = s.block_size ∧
    (apply_op env s o).state.opts = s.opts := by
  cases o with
  | fill inp salt =>
    have h := fill_fields env s inp salt
    exact ⟨h.1, h.2.1, h.2.2.1⟩
  | mix =>
    have h := mix_loop_fields env s.n_blocks 0 s
    exact ⟨h.1, h.2.1, h.2.2.1⟩
  | extract outlen =>
    simp only [apply_op, extract_state]
    exact ⟨trivial, trivial, trivial⟩

theorem run_ops_fields {BS : Type} (env : primitives BS) (ops : List op) :
    ∀ s : hash_state BS,
      (run_ops env s ops).n_blocks = s.n_blocks ∧
      (run_ops env s ops).block_size = s.block_size ∧
      (run_ops env s ops).opts = s.opts := by
  induction ops with
  | nil => intro s; exact ⟨rfl, rfl, rfl⟩
  | cons o os ih =>
    intro s
    have h1 := apply_op_fields env s o
    have h2 := ih (apply_op env s o).state
    simp only [run_ops]
    exact ⟨h2.1.trans h1.1, h2.2.1.trans h1.2.1, h2.2.2.trans h1.2.2⟩

theorem apply_op_has_mixed {BS : Type} (env : primitives BS) (s : hash_state BS) (o : op) :
    ((apply_op env s o).state.has_mixed = true ↔
      (s.has_mixed = true ∨
        (o = op.mix ∧ (apply_op env s o).status = outcome.returned ERROR_NONE))) := by
  cases o with
  | fill inp salt =>
    simp only [apply_op, (fill_fields env s inp salt).2.2.2.1]
    simp
  | mix =>
    have h := mix_loop_has_mixed env s.n_blocks 0 s
    simp only [apply_op, hash_state_mix, true_and]
    exact h
  | extract outlen =>
    simp only [apply_op, extract_state]
    simp

theorem run_ops_has_mixed {BS : Type} (env : primitives BS) (ops : List op) :
    ∀ s : hash_state BS, s.has_mixed = true → (run_ops env s ops).has_mixed = true := by
  induction ops with
  | nil => intro s h; exact h
  | cons o os ih =>
    intro s h
    simp only [run_ops]
    exact ih _ ((apply_op_has_mixed env s o).2 (Or.inl h))

/-! ## Initialisation -/

theorem size_mod_eq : SIZE_MOD = 18446744073709551616 := by
  norm_num [SIZE_MOD]

theorem uint_mod_eq : UINT_MOD = 4294967296 := by
  norm_num [UINT_MOD]

theorem init_state {BS : Type} (env : primitives BS) (s : hash_state BS)
    (opts : baghash_options) (salt : List Nat) (malloc : Nat → Option (List Nat)) :
    (hash_state_init env s opts salt malloc).state =
      { n_blocks := init_n_blocks env opts,
        block_size := env.compress_block_size opts.comp,
        has_mixed := false,
        buffer := malloc (init_size env opts),
        bstream := (env.bitstream_init_with_seed salt).2,
        opts := opts } := by
  unfold hash_state_init init_size init_n_blocks
  simp only []
  split_ifs <;> rfl

theorem init_status {BS : Type} (env : primitives BS) (s : hash_state BS)
    (opts : baghash_options) (salt : List Nat) (malloc : Nat → Option (List Nat)) :
    (hash_state_init env s opts salt malloc).status =
      if (env.bitstream_init_with_seed salt).1 ≠ 0
      then outcome.returned (env.bitstream_init_with_seed salt).1
      else outcome.returned
        (if (malloc (init_size env opts)).isSome then ERROR_NONE else env.ERROR_MALLOC) := by
  unfold hash_state_init init_size init_n_blocks
  simp only []
  split_ifs <;> rfl

theorem init_trace {BS : Type} (env : primitives BS) (s : hash_state BS)
    (opts : baghash_options) (salt : List Nat) (malloc : Nat → Option (List Nat)) :
    (hash_state_init env s opts salt malloc).trace = [event.malloc (init_size env opts)] := by
  unfold hash_state_init init_size init_n_blocks
  simp only []
  split_ifs <;> rfl

theorem forced_even (d : Nat) :
    (if d % 2 ≠ 0 then (d + 1) % SIZE_MOD else d) % 2 = 0 := by
  rw [size_mod_eq]
  split_ifs <;> omega

/-! ## The assertion of the mixing pass -/

theorem mix_block_not_aborted {BS : Type} (env : primitives BS) (s : hash_state BS)
    (i : Nat) (h : s.block_size = env.compress_block_size s.opts.comp) :
    (mix_block env s i).status ≠ outcome.aborted := by
  unfold mix_block
  simp only []
  split_ifs with h1 h2
  · simp
  · exact absurd h h2
  · simp

theorem mix_loop_not_aborted {BS : Type} (env : primitives BS) (todo : Nat) :
    ∀ (i : Nat) (s : hash_state BS),
      s.block_size = env.compress_block_size s.opts.comp →
      (mix_loop env todo i s).status ≠ outcome.aborted := by
  induction todo with
  | zero => intro i s _; simp [mix_loop]
  | succ k ih =>
    intro i s h
    have hb := mix_block_fields env s i
    simp only [mix_loop]
    split_ifs
    · exact mix_block_not_aborted env s i h
    · exact ih (i + 1) (mix_block env s i).state (by rw [hb.2.1, hb.2.2.1]; exact h)

/-! ## The byte-deriving scheme -/

theorem fill_bytes_of_success {BS : Type} (env : primitives BS) (s : hash_state BS)
    (n : Nat) (inp salt : List Nat) (h : stream_primitives_succeed env) :
    fill_bytes_from_strings env s n inp salt =
      (ERROR_NONE, some (env.bitstream_fill_buffer
        (env.bitstream_seed_finalize
          (env.bitstream_seed_add (env.bitstream_seed_add env.bitstream_init.2 salt).2 inp).2).2
        n).2.2) := by
  obtain ⟨h0, h1, h2, h3, h4⟩ := h
  unfold fill_bytes_from_strings
  simp [h0, h1, h2, h3, h4]

/-! ## Claims -/

/-- C4: for every result of `options_n_blocks`, the `n_blocks` field that
`hash_state_init` sets is even. -/
theorem init_n_blocks_even {BS : Type} (env : primitives BS) (s : hash_state BS)
    (opts : baghash_options) (salt : List Nat) (malloc : Nat → Option (List Nat)) :
    (hash_state_init env s opts salt malloc).state.n_blocks % 2 = 0 := by
  rw [init_state]
  exact forced_even _

/-- C8: `hash_state_init` clears `has_mixed`; no later fill, mix or extract
call, successful or not, clears it again; and a call turns it from false to
true exactly when it is a `hash_state_mix` call returning `ERROR_NONE`. -/
theorem has_mixed_monotonic {BS : Type} (env : primitives BS) :
    (∀ (s : hash_state BS) (opts : baghash_options) (salt : List Nat)
        (malloc : Nat → Option (List Nat)),
      (hash_state_init env s opts salt malloc).state.has_mixed = false) ∧
    (∀ (s : hash_state BS) (o : op),
      s.has_mixed = true → (apply_op env s o).state.has_mixed = true) ∧
    (∀ (s : hash_state BS) (ops : List op),
      s.has_mixed = true → (run_ops env s ops).has_mixed = true) ∧
    (∀ (s : hash_state BS) (o : op), s.has_mixed = false →
      ((apply_op env s o).state.has_mixed = true ↔
        (o = op.mix ∧ (apply_op env s o).status = outcome.returned ERROR_NONE))) := by
  refine ⟨?_, ?_, ?_, ?_⟩
  · intro s opts salt malloc
    rw [init_state]
  · intro s o h
    exact (apply_op_has_mixed env s o).2 (Or.inl h)
  · intro s ops h
    exact run_ops_has_mixed env ops s h
  · intro s o h
    rw [apply_op_has_mixed, h]
    simp

/-- C9: after `hash_state_init`, `block_size` is `compress_block_size
(opts.comp)`; any later sequence of fill, mix and extract calls leaves
`n_blocks`, `block_size`, their product and the options unchanged; hence the
assertion in `hash_state_mix` fails at no block of any later pass. -/
theorem sizes_fixed_after_init {BS : Type} (env : primitives BS) (s : hash_state BS)
    (opts : baghash_options) (salt : List Nat) (malloc : Nat → Option (List Nat))
    (ops : List op) :
    (hash_state_init env s opts salt malloc).state.block_size =
      env.compress_block_size opts.comp ∧
    (run_ops env (hash_state_init env s opts salt malloc).state ops).n_blocks =
      (hash_state_init env s opts salt malloc).state.n_blocks ∧
    (run_ops env (hash_state_init env s opts salt malloc).state ops).block_size =
      (hash_state_init env s opts salt malloc).state.block_size ∧
    (run_ops env (hash_state_init env s opts salt malloc).state ops).n_blocks *
        (run_ops env (hash_state_init env s opts salt malloc).state ops).block_size =
      (hash_state_init env s opts salt malloc).state.n_blocks *
        (hash_state_init env s opts salt malloc).state.block_size ∧
    (run_ops env (hash_state_init env s opts salt malloc).state ops).opts = opts ∧
    (run_ops env (hash_state_init env s opts salt malloc).state ops).block_size =
      env.compress_block_size
        (run_ops env (hash_state_init env s opts salt malloc).state ops).opts.comp ∧
    (∀ i : Nat,
      (mix_block env (run_ops env (hash_state_init env s opts salt malloc).state ops) i).status
        ≠ outcome.aborted) ∧
    (hash_state_mix env (run_ops env (hash_state_init env s opts salt malloc).state ops)).status
      ≠ outcome.aborted := by
  have h := run_ops_fields env ops (hash_state_init env s opts salt malloc).state
  have hb : (hash_state_init env s opts salt malloc).state.block_size =
      env.compress_block_size opts.comp := by rw [init_state]
  have ho : (hash_state_init env s opts salt malloc).state.opts = opts := by rw [init_state]
  have hinv : (run_ops env (hash_state_init env s opts salt malloc).state ops).block_size =
      env.compress_block_size
        (run_ops env (hash_state_init env s opts salt malloc).state ops).opts.comp := by
    rw [h.2.1, h.2.2, ho, hb]
  refine ⟨hb, h.1, h.2.1, ?_, h.2.2.trans ho, hinv, ?_, ?_⟩
  · rw [h.1, h.2.1]
  · intro i
    exact mix_block_not_aborted env _ i hinv
  · exact mix_loop_not_aborted env _ 0 _ hinv

/-- C1: while `has_mixed` is false `hash_state_extract` returns
`ERROR_CANNOT_EXTRACT_BEFORE_MIX` and writes nothing; on a state on which a
`hash_state_mix` call has returned `ERROR_NONE` (whatever fill, mix and
extract calls followed), it returns `ERROR_NONE`, not the sequencing error,
provided the byte-deriving stream primitives succeed. -/
theorem extract_needs_mix {BS : Type} (env : primitives BS)
    (hne : env.ERROR_CANNOT_EXTRACT_BEFORE_MIX ≠ ERROR_NONE) :
    (∀ (s : hash_state BS) (outlen : Nat), s.has_mixed = false →
      hash_state_extract env s outlen =
        { status := outcome.returned env.ERROR_CANNOT_EXTRACT_BEFORE_MIX, state := s,
          out := none, trace := [] }) ∧
    (∀ (s0 : hash_state BS) (ops : List op) (outlen : Nat),
      (hash_state_mix env s0).status = outcome.returned ERROR_NONE →
      stream_primitives_succeed env →
      (hash_state_extract env (run_ops env (hash_state_mix env s0).state ops) outlen).status
        = outcome.returned ERROR_NONE ∧
      (hash_state_extract env (run_ops env (hash_state_mix env s0).state ops) outlen).status
        ≠ outcome.returned env.ERROR_CANNOT_EXTRACT_BEFORE_MIX) := by
  constructor
  · intro s outlen h
    unfold hash_state_extract
    rw [if_pos h]
  · intro s0 ops outlen hmix hok
    have h1 : (hash_state_mix env s0).state.has_mixed = true :=
      (mix_loop_has_mixed env s0.n_blocks 0 s0).2 (Or.inr hmix)
    have h2 := run_ops_has_mixed env ops _ h1
    have h3 : (hash_state_extract env (run_ops env (hash_state_mix env s0).state ops)
        outlen).status = outcome.returned ERROR_NONE := by
      unfold hash_state_extract
      rw [if_neg (by rw [h2]; simp)]
      simp only [fill_bytes_of_success env _ _ _ _ hok]
    refine ⟨h3, ?_⟩
    rw [h3]
    intro hc
    injection hc with hc
    exact hne hc.symm

theorem fill_bytes_ignores_state {BS : Type} (env : primitives BS) (s s2 : hash_state BS)
    (n : Nat) (inp salt : List Nat) :
    fill_bytes_from_strings env s n inp salt = fill_bytes_from_strings env s2 n inp salt :=
  rfl

theorem block_last_eq {BS : Type} (s : hash_state BS) (hn : 0 < s.n_blocks)
    (hov : s.n_blocks * s.block_size < SIZE_MOD) :
    block_last s = s.block_size * (s.n_blocks - 1) := by
  unfold block_last block_last_index block_index
  rcases Nat.eq_zero_or_pos s.block_size with hb | hb
  · simp [hb]
  · have h1 : s.n_blocks ≤ s.n_blocks * s.block_size := Nat.le_mul_of_pos_right _ hb
    have h2 : (s.n_blocks + SIZE_MOD - 1) % SIZE_MOD = s.n_blocks - 1 := by
      rw [size_mod_eq] at *
      omega
    rw [h2]
    apply Nat.mod_eq_of_lt
    calc s.block_size * (s.n_blocks - 1)
        ≤ s.block_size * s.n_blocks := Nat.mul_le_mul_left _ (Nat.sub_le _ _)
      _ = s.n_blocks * s.block_size := Nat.mul_comm _ _
      _ < SIZE_MOD := hov

theorem write_bytes_zero (buf data : List Nat) (h : data.length ≤ buf.length) :
    write_bytes buf 0 data = data ++ buf.drop data.length := by
  simp [write_bytes, List.take_of_length_le h]

/-- C6: `hash_state_fill` leaves the state's own stream alone; when the
stream primitives succeed, the bytes stored at the start of the buffer are
those a fresh stream yields after the salt, then the password were added, the
seed finalised and `block_size` bytes requested, and `expand` is then called
on the buffer with `n_blocks` and the compression method of the options; the
bytes stored are block 0 exactly, the rest of the buffer being untouched
before `expand`. -/
theorem fill_derives_block0 {BS : Type} (env : primitives BS) (s : hash_state BS)
    (inp salt : List Nat) :
    (hash_state_fill env s inp salt).state.bstream = s.bstream ∧
    (stream_primitives_succeed env →
      hash_state_fill env s inp salt =
        { status := outcome.returned
            (env.expand (buffer_bytes (write_block s 0
              (env.bitstream_fill_buffer (env.bitstream_seed_finalize
                (env.bitstream_seed_add (env.bitstream_seed_add env.bitstream_init.2 salt).2
                  inp).2).2 s.block_size).2.2)) s.n_blocks s.opts.comp).1,
          state :=
            { s with buffer := s.buffer.map (fun _ =>
                (env.expand (buffer_bytes (write_block s 0
                  (env.bitstream_fill_buffer (env.bitstream_seed_finalize
                    (env.bitstream_seed_add (env.bitstream_seed_add env.bitstream_init.2 salt).2
                      inp).2).2 s.block_size).2.2)) s.n_blocks s.opts.comp).2) },
          out := none,
          trace := [event.expand s.n_blocks s.opts.comp] }) ∧
    (∀ buf data : List Nat, s.buffer = some buf → data.length = s.block_size →
      s.block_size ≤ buf.length →
      read_block (write_block s 0 data) 0 = data ∧
      (buffer_bytes (write_block s 0 data)).drop s.block_size = buf.drop s.block_size) := by
  refine ⟨(fill_fields env s inp salt).2.2.2.2, ?_, ?_⟩
  · intro hok
    unfold hash_state_fill
    simp only [fill_bytes_of_success env s _ _ _ hok]
    cases hb : s.buffer <;> simp [ERROR_NONE, write_block, hb] <;>
      exact fun h => h.symm
  · intro buf data hb hd hle
    have hw : write_bytes buf 0 data = data ++ buf.drop data.length :=
      write_bytes_zero buf data (by omega)
    constructor
    · simp [read_block, write_block, buffer_bytes, hb, hw, ← hd]
    · simp [write_block, buffer_bytes, hb, hw, ← hd]

/-- C5: with `has_mixed` set, `hash_state_extract` returns what
`fill_bytes_from_strings` yields for `outlen` bytes with the last block as
input and an empty salt, and leaves the hash state as it was; status and
output depend on the state through the last block only; when the stream
primitives succeed and store as many bytes as requested, exactly `outlen`
bytes are written; and in a buffer of `n_blocks` blocks the bytes read are the
`block_size` bytes of block `n_blocks - 1`. -/
theorem extract_from_last_block {BS : Type} (env : primitives BS) (s : hash_state BS)
    (outlen : Nat) (h : s.has_mixed = true) :
    hash_state_extract env s outlen =
      { status := outcome.returned
          (fill_bytes_from_strings env s outlen (read_block s (block_last s)) []).1,
        state := s,
        out := (fill_bytes_from_strings env s outlen (read_block s (block_last s)) []).2,
        trace := [event.block_index (block_last_index s)] } ∧
    (∀ s2 : hash_state BS, s2.has_mixed = true →
      read_block s2 (block_last s2) = read_block s (block_last s) →
      (hash_state_extract env s2 outlen).status = (hash_state_extract env s outlen).status ∧
      (hash_state_extract env s2 outlen).out = (hash_state_extract env s outlen).out) ∧
    (stream_primitives_succeed env → fill_buffer_exact env →
      (hash_state_extract env s outlen).status = outcome.returned ERROR_NONE ∧
      ∃ bytes : List Nat, (hash_state_extract env s outlen).out = some bytes ∧
        bytes.length = outlen ∧
        bytes = (env.bitstream_fill_buffer (env.bitstream_seed_finalize
          (env.bitstream_seed_add (env.bitstream_seed_add env.bitstream_init.2 []).2
            (read_block s (block_last s))).2).2 outlen).2.2) ∧
    (∀ buf : List Nat, s.buffer = some buf → buf.length = s.n_blocks * s.block_size →
      0 < s.n_blocks → s.n_blocks * s.block_size < SIZE_MOD →
      read_block s (block_last s) = buf.drop (s.block_size * (s.n_blocks - 1)) ∧
      (read_block s (block_last s)).length = s.block_size) := by
  have hx : ∀ t : hash_state BS, t.has_mixed = true →
      hash_state_extract env t outlen =
        { status := outcome.returned
            (fill_bytes_from_strings env t outlen (read_block t (block_last t)) []).1,
          state := t,
          out := (fill_bytes_from_strings env t outlen (read_block t (block_last t)) []).2,
          trace := [event.block_index (block_last_index t)] } := by
    intro t ht
    unfold hash_state_extract
    rw [if_neg (by rw [ht]; simp)]
  refine ⟨hx s h, ?_, ?_, ?_⟩
  · intro s2 h2 heq
    rw [hx s h, hx s2 h2, heq, fill_bytes_ignores_state env s2 s]
    exact ⟨rfl, rfl⟩
  · intro hok hex
    rw [hx s h]
    simp only [fill_bytes_of_success env s _ _ _ hok]
    exact ⟨trivial, _, rfl, hex _ _, rfl⟩
  · intro buf hb hlen hn hov
    have hl := block_last_eq s hn hov
    have hdrop : (buf.drop (s.block_size * (s.n_blocks - 1))).length = s.block_size := by
      rw [List.length_drop, hlen]
      have : s.n_blocks * s.block_size =
          s.block_size * (s.n_blocks - 1) + s.block_size := by
        obtain ⟨m, hm⟩ : ∃ m, s.n_blocks = m + 1 := ⟨s.n_blocks - 1, by omega⟩
        rw [hm]
        simp
        ring
      omega
    have hr : read_block s (block_last s) = buf.drop (s.block_size * (s.n_blocks - 1)) := by
      simp only [read_block, buffer_bytes, hb, Option.getD_some, hl]
      exact List.take_of_length_le (by omega)
    exact ⟨hr, by rw [hr, hdrop]⟩

/-! ## Indices handed to the block accessor -/

theorem block_last_index_lt {BS : Type} (s : hash_state BS) (hn : s.n_blocks ≠ 0) :
    block_last_index s < s.n_blocks := by
  unfold block_last_index
  rw [size_mod_eq]
  omega

theorem prev_block_eq {BS : Type} (s : hash_state BS) (i : Nat) (hi : 0 < i) :
    prev_block s i = block_index s (i - 1) := by
  unfold prev_block block_index
  rw [if_pos (by omega)]
  obtain ⟨j, rfl⟩ : ∃ j, i = j + 1 := ⟨i - 1, by omega⟩
  have h : s.block_size * (j + 1) = s.block_size * j + s.block_size := by ring
  rw [h, Nat.add_sub_cancel, size_mod_eq]
  generalize s.block_size * j = a
  omega

theorem prev_block_zero {BS : Type} (s : hash_state BS) :
    prev_block s 0 = block_index s (block_last_index s) := by
  unfold prev_block block_last
  rw [if_neg (by simp)]

theorem pick_neighbors_in_range {BS : Type} (env : primitives BS)
    (hr : rand_int_below env) (max : Nat) (count : Nat) :
    ∀ (st : BS) (i : Nat),
      event.block_index i ∈ (pick_neighbors env max count st).trace → i < max := by
  induction count with
  | zero => intro st i h; simp [pick_neighbors] at h
  | succ k ih =>
    intro st i h
    simp only [pick_neighbors] at h
    split_ifs at h with h1
    · simp at h
    · simp only [List.mem_cons] at h
      rcases h with h | h | h
      · cases h
      · injection h with h
        rw [h]
        exact hr st max (by simpa using h1)
      · exact ih _ _ h

theorem mix_block_in_range {BS : Type} (env : primitives BS) (hr : rand_int_below env)
    (s : hash_state BS) (i : Nat) (hi : i < s.n_blocks) (j : Nat)
    (h : event.block_index j ∈ (mix_block env s i).trace) : j < s.n_blocks := by
  have h0 : event.block_index j ∈ cur_prev_trace s i → j < s.n_blocks := by
    intro h0
    unfold cur_prev_trace at h0
    split_ifs at h0
    · simp at h0; omega
    · simp only [List.mem_cons, event.block_index.injEq, List.mem_singleton,
        List.not_mem_nil, or_false] at h0
      rcases h0 with h0 | h0
      · omega
      · rw [h0]; exact block_last_index_lt s (by omega)
  unfold mix_block at h
  simp only [] at h
  split_ifs at h
  · rcases List.mem_append.1 h with h | h
    · exact h0 h
    · exact pick_neighbors_in_range env hr _ _ _ _ h
  · rcases List.mem_append.1 h with h | h
    · exact h0 h
    · exact pick_neighbors_in_range env hr _ _ _ _ h
  · rcases List.mem_append.1 h with h | h
    · rcases List.mem_append.1 h with h | h
      · exact h0 h
      · exact pick_neighbors_in_range env hr _ _ _ _ h
    · simp at h

theorem mix_loop_in_range {BS : Type} (env : primitives BS) (hr : rand_int_below env)
    (todo : Nat) :
    ∀ (i : Nat) (s : hash_state BS), i + todo = s.n_blocks → ∀ j : Nat,
      event.block_index j ∈ (mix_loop env todo i s).trace → j < s.n_blocks := by
  induction todo with
  | zero => intro i s _ j h; simp [mix_loop] at h
  | succ k ih =>
    intro i s hs j h
    have hb := (mix_block_fields env s i).1
    simp only [mix_loop] at h
    split_ifs at h
    · exact mix_block_in_range env hr s i (by omega) j h
    · rcases List.mem_append.1 h with h | h
      · exact mix_block_in_range env hr s i (by omega) j h
      · have := ih (i + 1) (mix_block env s i).state (by rw [hb]; omega) j h
        rwa [hb] at this

theorem extract_in_range {BS : Type} (env : primitives BS) (s : hash_state BS)
    (outlen : Nat) (hn : s.n_blocks ≠ 0) (j : Nat)
    (h : event.block_index j ∈ (hash_state_extract env s outlen).trace) :
    j < s.n_blocks := by
  unfold hash_state_extract at h
  split_ifs at h
  · simp at h
  · simp only [List.mem_singleton, event.block_index.injEq] at h
    rw [h]
    exact block_last_index_lt s hn

/-- C10, as amended: on every state reached from `hash_state_init` whose
`n_blocks` is not zero, every index that `hash_state_mix` and
`hash_state_extract` hand to `block_index` (directly or through `block_last`)
is below `n_blocks`, and the previous-block pointer of a block `i > 0` is the
pointer of block `i - 1`, provided a successful draw is below its bound. -/
theorem block_indices_in_range {BS : Type} (env : primitives BS)
    (hr : rand_int_below env) (s : hash_state BS) (opts : baghash_options)
    (salt : List Nat) (malloc : Nat → Option (List Nat)) (ops : List op) (outlen : Nat)
    (hn : (hash_state_init env s opts salt malloc).state.n_blocks ≠ 0) :
    (∀ j : Nat, event.block_index j ∈
        (hash_state_mix env
          (run_ops env (hash_state_init env s opts salt malloc).state ops)).trace →
      j < (run_ops env (hash_state_init env s opts salt malloc).state ops).n_blocks) ∧
    (∀ j : Nat, event.block_index j ∈
        (hash_state_extract env
          (run_ops env (hash_state_init env s opts salt malloc).state ops) outlen).trace →
      j < (run_ops env (hash_state_init env s opts salt malloc).state ops).n_blocks) ∧
    (∀ i : Nat, 0 < i →
      prev_block (run_ops env (hash_state_init env s opts salt malloc).state ops) i =
        block_index (run_ops env (hash_state_init env s opts salt malloc).state ops) (i - 1)) ∧
    prev_block (run_ops env (hash_state_init env s opts salt malloc).state ops) 0 =
      block_index (run_ops env (hash_state_init env s opts salt malloc).state ops)
        (block_last_index (run_ops env (hash_state_init env s opts salt malloc).state ops)) := by
  have hf := (run_ops_fields env ops (hash_state_init env s opts salt malloc).state).1
  refine ⟨?_, ?_, ?_, prev_block_zero _⟩
  · intro j h
    exact mix_loop_in_range env hr _ 0 _ (Nat.zero_add _) j h
  · intro j h
    exact extract_in_range env _ outlen (by rw [hf]; exact hn) j h
  · intro i hi
    exact prev_block_eq _ i hi

theorem toy_rand_int_below (derive : baghash_options → Nat) (bsz : Nat) :
    rand_int_below (toy_primitives derive bsz) := by
  intro st max h
  simp only [toy_primitives] at h ⊢
  split_ifs at h with h0
  · simp at h
  · exact Nat.mod_lt _ (Nat.pos_of_ne_zero h0)

/-- C10, counterexample: with a derived block count of zero the state that
`hash_state_init` produces has no blocks, a mixing pass succeeds on it, and
`hash_state_extract` then hands `block_index` the index `2^64 - 1`, which is
not below `n_blocks`. -/
theorem block_last_index_out_of_range :
    rand_int_below toy_env ∧
    (hash_state_init toy_env (stale_state 7) (toy_options 0 1 1) [1, 2]
      (toy_malloc 9)).status = outcome.returned ERROR_NONE ∧
    (hash_state_mix toy_env (hash_state_init toy_env (stale_state 7) (toy_options 0 1 1)
      [1, 2] (toy_malloc 9)).state).status = outcome.returned ERROR_NONE ∧
    (hash_state_mix toy_env (hash_state_init toy_env (stale_state 7) (toy_options 0 1 1)
      [1, 2] (toy_malloc 9)).state).state.n_blocks = 0 ∧
    event.block_index 18446744073709551615 ∈
      (hash_state_extract toy_env (hash_state_mix toy_env (hash_state_init toy_env
        (stale_state 7) (toy_options 0 1 1) [1, 2] (toy_malloc 9)).state).state 4).trace ∧
    ¬ (18446744073709551615 <
      (hash_state_mix toy_env (hash_state_init toy_env (stale_state 7) (toy_options 0 1 1)
        [1, 2] (toy_malloc 9)).state).state.n_blocks) := by
  refine ⟨toy_rand_int_below _ _, ?_, ?_, ?_, ?_, ?_⟩
  · decide
  · decide
  · decide
  · decide
  · decide

/-- C3: `hash_state_init` does not reject a buffer size that leaves the range
of `size_t`.  For options whose derived block count is `2^58 + 2`, with
64-byte blocks, `n_blocks * block_size` is `2^64 + 128`; `hash_state_init`
asks the allocator for 128 bytes and returns `ERROR_NONE`. -/
theorem init_accepts_wrapped_size :
    (hash_state_init (toy_primitives (fun o => o.m_cost * 4294967296 + 2) 64)
      (stale_state 7) (toy_options 67108864 1 3) [1, 2] (toy_malloc 9)).status
      = outcome.returned ERROR_NONE ∧
    (hash_state_init (toy_primitives (fun o => o.m_cost * 4294967296 + 2) 64)
      (stale_state 7) (toy_options 67108864 1 3) [1, 2] (toy_malloc 9)).trace
      = [event.malloc 128] ∧
    (hash_state_init (toy_primitives (fun o => o.m_cost * 4294967296 + 2) 64)
      (stale_state 7) (toy_options 67108864 1 3) [1, 2] (toy_malloc 9)).state.n_blocks
      = 288230376151711746 ∧
    (hash_state_init (toy_primitives (fun o => o.m_cost * 4294967296 + 2) 64)
      (stale_state 7) (toy_options 67108864 1 3) [1, 2] (toy_malloc 9)).state.block_size
      = 64 ∧
    SIZE_MOD ≤ 288230376151711746 * 64 ∧
    (buffer_bytes (hash_state_init (toy_primitives (fun o => o.m_cost * 4294967296 + 2) 64)
      (stale_state 7) (toy_options 67108864 1 3) [1, 2] (toy_malloc 9)).state).length
      = 128 := by
  refine ⟨?_, ?_, ?_, ?_, ?_, ?_⟩
  · decide
  · decide
  · decide
  · decide
  · decide
  · rw [init_state]
    simp [buffer_bytes, toy_malloc]
    decide

/-! ## Determinism of the construction -/

theorem write_bytes_get (buf : List Nat) (p : Nat) (data : List Nat)
    (h : p + data.length ≤ buf.length) (m : Nat) :
    (write_bytes buf p data)[m]? =
      if p ≤ m ∧ m < p + data.length then data[m - p]? else buf[m]? := by
  unfold write_bytes
  have hd : data.take (buf.length - p) = data := List.take_of_length_le (by omega)
  have hlt : (buf.take p).length = p := by rw [List.length_take]; omega
  rw [hd, List.append_assoc, List.getElem?_append, List.getElem?_append, hlt]
  by_cases h1 : m < p
  · rw [if_pos h1, if_neg (by omega), List.getElem?_take_of_lt h1]
  · rw [if_neg h1]
    by_cases h2 : m - p < data.length
    · rw [if_pos h2, if_pos (by omega)]
    · rw [if_neg h2, if_neg (by omega), List.getElem?_drop]
      congr 1
      omega

theorem read_get (buf : List Nat) (q bsz m : Nat) :
    ((buf.drop q).take bsz)[m]? = if m < bsz then buf[q + m]? else none := by
  rw [List.getElem?_take, List.getElem?_drop]

theorem read_after_write_other (buf data : List Nat) (bsz i j : Nat)
    (hd : data.length = bsz) (hi : bsz * i + bsz ≤ buf.length) (hij : i ≠ j) :
    ((write_bytes buf (bsz * i) data).drop (bsz * j)).take bsz =
      (buf.drop (bsz * j)).take bsz := by
  apply List.ext_getElem?
  intro m
  rw [read_get, read_get]
  split_ifs with hm
  · rw [write_bytes_get _ _ _ (by omega), if_neg]
    rintro ⟨h1, h2⟩
    rcases Nat.lt_or_gt_of_ne hij with hlt | hgt
    · have e1 : bsz * (i + 1) ≤ bsz * j := Nat.mul_le_mul_left bsz hlt
      rw [Nat.mul_succ] at e1
      omega
    · have e1 : bsz * (j + 1) ≤ bsz * i := Nat.mul_le_mul_left bsz hgt
      rw [Nat.mul_succ] at e1
      omega
  · rfl

theorem read_after_write_same (buf data : List Nat) (bsz i : Nat)
    (hd : data.length = bsz) (hi : bsz * i + bsz ≤ buf.length) :
    ((write_bytes buf (bsz * i) data).drop (bsz * i)).take bsz = data := by
  apply List.ext_getElem?
  intro m
  rw [read_get]
  split_ifs with hm
  · rw [write_bytes_get _ _ _ (by omega), if_pos ⟨by omega, by omega⟩]
    congr 1
    omega
  · exact (List.getElem?_eq_none (by omega)).symm

theorem block_fits (n bsz i : Nat) (hi : i < n) : bsz * i + bsz ≤ n * bsz := by
  have e1 : bsz * (i + 1) ≤ bsz * n := Nat.mul_le_mul_left bsz hi
  rw [Nat.mul_succ, Nat.mul_comm bsz n] at e1
  exact e1

theorem blocks_of_length {BS : Type} (s : hash_state BS) :
    (blocks_of s).length = s.n_blocks := by
  simp [blocks_of]

theorem blocks_of_getD {BS : Type} (s : hash_state BS) (j : Nat) (hj : j < s.n_blocks) :
    (blocks_of s).getD j [] = read_block s (s.block_size * j) := by
  simp [blocks_of, List.getElem?_range hj]

theorem blocks_of_write {BS : Type} (s : hash_state BS) (buf : List Nat)
    (hb : s.buffer = some buf) (hlen : buf.length = s.n_blocks * s.block_size)
    (i : Nat) (hi : i < s.n_blocks) (data : List Nat) (hd : data.length = s.block_size) :
    blocks_of (write_block s (s.block_size * i) data) = (blocks_of s).set i data := by
  have hfit := block_fits s.n_blocks s.block_size i hi
  apply List.ext_getElem?
  intro j
  rw [List.getElem?_set, blocks_of_length]
  simp only [blocks_of, List.getElem?_map, write_block, read_block, buffer_bytes, hb,
    Option.map_some', Option.getD_some]
  by_cases hj : j < s.n_blocks
  · rw [List.getElem?_range hj]
    simp only [Option.map_some']
    by_cases hij : i = j
    · subst hij
      rw [if_pos rfl, if_pos hi, read_after_write_same buf data _ _ hd (by omega)]
    · rw [if_neg hij, read_after_write_other buf data _ _ _ hd (by omega) hij]
  · have hnone : (List.range s.n_blocks)[j]? = none :=
      List.getElem?_eq_none (by simp; omega)
    rw [hnone, if_neg (by omega)]
    rfl

/-! ## Pointers of a buffer whose size did not wrap -/

theorem block_index_eq {BS : Type} (s : hash_state BS)
    (hov : s.n_blocks * s.block_size < SIZE_MOD) (i : Nat) (hi : i < s.n_blocks) :
    block_index s i = s.block_size * i := by
  unfold block_index
  apply Nat.mod_eq_of_lt
  have := block_fits s.n_blocks s.block_size i hi
  omega

theorem prev_block_index {BS : Type} (s : hash_state BS)
    (hov : s.n_blocks * s.block_size < SIZE_MOD) (i : Nat) (hi : i < s.n_blocks) :
    prev_block s i = s.block_size * (if i = 0 then s.n_blocks - 1 else i - 1) := by
  by_cases h0 : i = 0
  · subst h0
    rw [if_pos rfl]
    unfold prev_block
    rw [if_neg (by simp)]
    exact block_last_eq s (by omega) hov
  · rw [if_neg h0, prev_block_eq s i (by omega)]
    exact block_index_eq s hov (i - 1) (by omega)

/-! ## The draws -/

theorem pick_neighbors_reference {BS : Type} (env : primitives BS)
    (hr : rand_int_below env) (max count : Nat) :
    ∀ st : BS, (pick_neighbors env max count st).error = 0 →
      (pick_neighbors env max count st).neighbors = (reference_draws env max count st).1 ∧
      (pick_neighbors env max count st).bstream = (reference_draws env max count st).2 ∧
      (pick_neighbors env max count st).neighbors.length = count ∧
      ∀ r ∈ (pick_neighbors env max count st).neighbors, r < max := by
  induction count with
  | zero =>
    intro st _
    simp [pick_neighbors, reference_draws]
  | succ k ih =>
    intro st h
    simp only [pick_neighbors] at h ⊢
    split_ifs at h ⊢ with h1
    · exact absurd h h1
    · have h2 := ih _ h
      simp only [reference_draws]
      refine ⟨by rw [h2.1], h2.2.1, by simp [h2.2.2.1], ?_⟩
      intro r hmem
      rcases List.mem_cons.1 hmem with hmem | hmem
      · rw [hmem]
        exact hr st max (by simpa using h1)
      · exact h2.2.2.2 r hmem

/-! ## The mixing pass against the reference pass -/

theorem n_blocks_to_hash_eq {BS : Type} (s : hash_state BS)
    (hk : s.opts.n_neighbors + 2 < UINT_MOD) :
    n_blocks_to_hash s = s.opts.n_neighbors + 2 := by
  unfold n_blocks_to_hash
  exact Nat.mod_eq_of_lt hk

theorem mix_block_refines {BS : Type} (env : primitives BS) (hr : rand_int_below env)
    (hc : compress_exact env) (s : hash_state BS) (hs : well_sized env s)
    (i : Nat) (hi : i < s.n_blocks)
    (hok : (mix_block env s i).status = outcome.returned 0) :
    (blocks_of (mix_block env s i).state, (mix_block env s i).state.bstream) =
      reference_step env s.opts.comp s.opts.n_neighbors i (blocks_of s, s.bstream) ∧
    well_sized env (mix_block env s i).state := by
  obtain ⟨⟨buf, hb, hlen⟩, hov, hbs, hk⟩ := hs
  have hf := mix_block_fields env s i
  have hcount := n_blocks_to_hash_eq s hk
  have hsub : n_blocks_to_hash s - 2 = s.opts.n_neighbors := by omega
  -- the state stays well sized
  have hws : well_sized env (mix_block env s i).state := by
    refine ⟨?_, ?_, ?_, ?_⟩
    · have hl := hf.2.2.2.2
      cases hb2 : (mix_block env s i).state.buffer with
      | none =>
        unfold mix_block at hb2
        simp only [] at hb2
        split_ifs at hb2 <;> simp [write_block, hb] at hb2
      | some b2 =>
        refine ⟨b2, rfl, ?_⟩
        simp only [buffer_bytes, hb2, hb, Option.getD_some] at hl
        rw [hl, hlen, hf.1, hf.2.1]
    · rw [hf.1, hf.2.1]; exact hov
    · rw [hf.2.1, hf.2.2.1]; exact hbs
    · rw [hf.2.2.1]; exact hk
  refine ⟨?_, hws⟩
  unfold mix_block at hok ⊢
  simp only [] at hok ⊢
  rw [hsub] at hok ⊢
  by_cases hd : (pick_neighbors env s.n_blocks s.opts.n_neighbors s.bstream).error = 0
  · have hp := pick_neighbors_reference env hr s.n_blocks s.opts.n_neighbors s.bstream hd
    rw [if_neg (not_not.2 hd), if_neg (not_not.2 hbs)] at hok ⊢
    simp only [] at hok ⊢
    -- the blocks handed to the compressor
    have htake : List.take (n_blocks_to_hash s)
        ([prev_block s i, block_index s i] ++
          List.map (block_index s)
            (pick_neighbors env s.n_blocks s.opts.n_neighbors s.bstream).neighbors) =
        [prev_block s i, block_index s i] ++
          List.map (block_index s)
            (pick_neighbors env s.n_blocks s.opts.n_neighbors s.bstream).neighbors := by
      apply List.take_of_length_le
      simp only [List.length_append, List.length_map, List.length_cons, List.length_nil]
      rw [hp.2.2.1, hcount]
      omega
    rw [htake]
    have hcur := block_index_eq s hov i hi
    have hprev := prev_block_index s hov i hi
    have hprev_lt : (if i = 0 then s.n_blocks - 1 else i - 1) < s.n_blocks := by
      split_ifs <;> omega
    have hinputs : List.map
        (read_block { s with
          bstream := (pick_neighbors env s.n_blocks s.opts.n_neighbors s.bstream).bstream })
        ([prev_block s i, block_index s i] ++
          List.map (block_index s)
            (pick_neighbors env s.n_blocks s.opts.n_neighbors s.bstream).neighbors) =
        (if i = 0 then (blocks_of s).getD ((blocks_of s).length - 1) []
          else (blocks_of s).getD (i - 1) []) ::
        (blocks_of s).getD i [] ::
        List.map (fun r => (blocks_of s).getD r [])
          (reference_draws env (blocks_of s).length s.opts.n_neighbors s.bstream).1 := by
      rw [blocks_of_length, ← hp.1]
      simp only [List.cons_append, List.nil_append, List.map_cons, List.map_map]
      congr 1
      · rw [hprev]
        split_ifs with h0
        · exact (blocks_of_getD s _ (by omega)).symm
        · exact (blocks_of_getD s _ (by omega)).symm
      · congr 1
        · rw [hcur]
          exact (blocks_of_getD s _ hi).symm
        · apply List.map_congr_left
          intro r hrm
          have hlt := hp.2.2.2 r hrm
          simp only [Function.comp]
          rw [block_index_eq s hov r hlt]
          exact (blocks_of_getD s _ hlt).symm
    rw [hinputs]
    unfold reference_step
    simp only []
    rw [blocks_of_length, ← hp.2.1]
    congr 1
    rw [hcur]
    exact blocks_of_write { s with
        bstream := (pick_neighbors env s.n_blocks s.opts.n_neighbors s.bstream).bstream }
      buf hb hlen i hi _ (by rw [hc]; exact hbs.symm)
  · rw [if_pos hd] at hok
    simp only [] at hok
    injection hok with hok
    exact absurd hok hd

theorem mix_loop_refines {BS : Type} (env : primitives BS) (hr : rand_int_below env)
    (hc : compress_exact env) (todo : Nat) :
    ∀ (i : Nat) (s : hash_state BS), well_sized env s → i + todo = s.n_blocks →
      (mix_loop env todo i s).status = outcome.returned 0 →
      (blocks_of (mix_loop env todo i s).state, (mix_loop env todo i s).state.bstream) =
        reference_pass env s.opts.comp s.opts.n_neighbors todo i (blocks_of s, s.bstream) := by
  induction todo with
  | zero =>
    intro i s _ _ _
    rfl
  | succ t ih =>
    intro i s hs hit hok
    have hf := mix_block_fields env s i
    simp only [mix_loop] at hok ⊢
    by_cases h1 : (mix_block env s i).status = outcome.returned 0
    · rw [if_neg (not_not.2 h1)] at hok ⊢
      have hb := mix_block_refines env hr hc s hs i (by omega) h1
      have h2 := ih (i + 1) (mix_block env s i).state hb.2 (by rw [hf.1]; omega) hok
      simp only [reference_pass]
      rw [← hb.1, ← hf.2.2.1]
      exact h2
    · rw [if_pos h1] at hok
      exact absurd hok h1

/-- A successful mixing pass on a buffer whose size did not wrap, with a
neighbour count whose sum with two does not wrap either, is the reference
pass: same blocks, same stream, `has_mixed` set, nothing else changed. -/
theorem mix_refines_reference {BS : Type} (env : primitives BS) (hr : rand_int_below env)
    (hc : compress_exact env) (s : hash_state BS) (hs : well_sized env s)
    (hok : (hash_state_mix env s).status = outcome.returned ERROR_NONE) :
    (blocks_of (hash_state_mix env s).state, (hash_state_mix env s).state.bstream) =
      reference_mix env s.opts.comp s.opts.n_neighbors (blocks_of s, s.bstream) ∧
    (hash_state_mix env s).state.has_mixed = true ∧
    (hash_state_mix env s).state.n_blocks = s.n_blocks ∧
    (hash_state_mix env s).state.block_size = s.block_size ∧
    (hash_state_mix env s).state.opts = s.opts := by
  have hf := mix_loop_fields env s.n_blocks 0 s
  refine ⟨?_, (mix_loop_has_mixed env s.n_blocks 0 s).2 (Or.inr hok), hf.1, hf.2.1, hf.2.2.1⟩
  unfold reference_mix
  simp only [blocks_of_length]
  exact mix_loop_refines env hr hc s.n_blocks 0 s hs (Nat.zero_add _) hok

/-! ## The neighbour count at the top of its range -/

theorem toy_reference_draws_stream (n k : Nat) :
    ∀ st : Nat, (reference_draws toy_env n k st).2 = st + k := by
  induction k with
  | zero => intro st; rfl
  | succ k ih =>
    intro st
    simp only [reference_draws]
    rw [ih]
    simp only [toy_env, toy_primitives]
    omega

theorem toy_reference_pass_stream (comp : comp_method) (k todo : Nat) :
    ∀ (i : Nat) (x : List (List Nat) × Nat),
      (reference_pass toy_env comp k todo i x).2 = x.2 + todo * k := by
  induction todo with
  | zero => intro i x; simp [reference_pass]
  | succ t ih =>
    intro i x
    simp only [reference_pass]
    rw [ih]
    simp only [reference_step, toy_reference_draws_stream]
    ring

/-- C2: at the top of the range of `n_neighbors` a successful
`hash_state_mix` call is not the reference pass.  With
`n_neighbors = 4294967295` the sum `n_neighbors + 2` wraps to 1: on a
two-block buffer `hash_state_mix` succeeds having made no draw at all and
having handed `compress` one block per call, whereas the reference pass makes
`2 * 4294967295` draws. -/
theorem mix_wraps_neighbor_count :
    (hash_state_mix toy_env (toy_state 2 4294967295 false)).status
      = outcome.returned ERROR_NONE ∧
    (hash_state_mix toy_env (toy_state 2 4294967295 false)).trace
      = [event.block_index 0, event.block_index 1, event.compress 1,
         event.block_index 1, event.compress 1] ∧
    (hash_state_mix toy_env (toy_state 2 4294967295 false)).state.buffer = some [2, 3] ∧
    (hash_state_mix toy_env (toy_state 2 4294967295 false)).state.bstream = 0 ∧
    (reference_mix toy_env (toy_state 2 4294967295 false).opts.comp 4294967295
      (blocks_of (toy_state 2 4294967295 false),
        (toy_state 2 4294967295 false).bstream)).2 = 8589934590 ∧
    (blocks_of (hash_state_mix toy_env (toy_state 2 4294967295 false)).state,
      (hash_state_mix toy_env (toy_state 2 4294967295 false)).state.bstream) ≠
    reference_mix toy_env (toy_state 2 4294967295 false).opts.comp
      (toy_state 2 4294967295 false).opts.n_neighbors
      (blocks_of (toy_state 2 4294967295 false), (toy_state 2 4294967295 false).bstream) := by
  have href : (reference_mix toy_env (toy_state 2 4294967295 false).opts.comp 4294967295
      (blocks_of (toy_state 2 4294967295 false),
        (toy_state 2 4294967295 false).bstream)).2 = 8589934590 := by
    unfold reference_mix
    rw [toy_reference_pass_stream]
    decide
  have hcode : (hash_state_mix toy_env (toy_state 2 4294967295 false)).state.bstream = 0 := by
    decide
  refine ⟨by decide, by decide, by decide, hcode, href, ?_⟩
  intro h
  have h2 := congrArg Prod.snd h
  simp only [] at h2
  rw [hcode] at h2
  have h3 : (toy_state 2 4294967295 false).opts.n_neighbors = 4294967295 := rfl
  rw [h3, href] at h2
  exact absurd h2 (by decide)

/-! ## The small instance meets the contracts -/

theorem toy_stream_ok (derive : baghash_options → Nat) (bsz : Nat) :
    stream_primitives_succeed (toy_primitives derive bsz) :=
  ⟨rfl, fun _ _ => rfl, fun _ => rfl, fun _ _ => rfl, fun _ => rfl⟩

theorem toy_fill_buffer_exact (derive : baghash_options → Nat) (bsz : Nat) :
    fill_buffer_exact (toy_primitives derive bsz) := by
  intro st n
  simp [toy_primitives]

/-- C1 at a concrete state: extraction fails before the pass and succeeds
after it. -/
theorem extract_needs_mix_witness :
    toy_env.ERROR_CANNOT_EXTRACT_BEFORE_MIX ≠ ERROR_NONE ∧
    (toy_state 2 1 false).has_mixed = false ∧
    hash_state_extract toy_env (toy_state 2 1 false) 4 =
      { status := outcome.returned 2, state := toy_state 2 1 false, out := none,
        trace := [] } ∧
    (hash_state_mix toy_env (toy_state 2 1 false)).status = outcome.returned ERROR_NONE ∧
    stream_primitives_succeed toy_env ∧
    (hash_state_extract toy_env
      (run_ops toy_env (hash_state_mix toy_env (toy_state 2 1 false)).state
        [op.mix, op.extract 3]) 4).status = outcome.returned ERROR_NONE :=
  ⟨by decide, rfl,
    (extract_needs_mix toy_env (by decide)).1 (toy_state 2 1 false) 4 rfl,
    by decide, toy_stream_ok _ _,
    ((extract_needs_mix toy_env (by decide)).2 (toy_state 2 1 false)
      [op.mix, op.extract 3] 4 (by decide) (toy_stream_ok _ _)).1⟩

/-- C5 at a concrete state: four bytes derived from the last block. -/
theorem extract_from_last_block_witness :
    (toy_state 2 1 true).has_mixed = true ∧
    hash_state_extract toy_env (toy_state 2 1 true) 4 =
      { status := outcome.returned 0, state := toy_state 2 1 true,
        out := some [5, 6, 7, 8], trace := [event.block_index 1] } ∧
    (stream_primitives_succeed toy_env ∧ fill_buffer_exact toy_env) ∧
    (hash_state_extract toy_env (toy_state 2 1 true) 4).status
      = outcome.returned ERROR_NONE ∧
    ((toy_state 2 1 true).buffer = some [0, 1] ∧
      (toy_state 2 1 true).n_blocks * (toy_state 2 1 true).block_size < SIZE_MOD) ∧
    read_block (toy_state 2 1 true) (block_last (toy_state 2 1 true)) = [1] :=
  ⟨rfl, (extract_from_last_block toy_env (toy_state 2 1 true) 4 rfl).1.trans (by decide),
    ⟨toy_stream_ok _ _, toy_fill_buffer_exact _ _⟩,
    ((extract_from_last_block toy_env (toy_state 2 1 true) 4 rfl).2.2.1
      (toy_stream_ok _ _) (toy_fill_buffer_exact _ _)).1,
    ⟨rfl, by decide⟩,
    ((extract_from_last_block toy_env (toy_state 2 1 true) 4 rfl).2.2.2 [0, 1] rfl rfl
      (by decide) (by decide)).1⟩

/-- C6 at a concrete state: block 0 derived from salt and password, then the
expansion. -/
theorem fill_derives_block0_witness :
    stream_primitives_succeed toy_env ∧
    hash_state_fill toy_env (toy_state 4 1 false) [5] [1, 2] =
      { status := outcome.returned 0,
        state := { toy_state 4 1 false with buffer := some [15, 19, 20, 21] },
        out := none,
        trace := [event.expand 4 comp_method.COMP__KECCAK_1600] } ∧
    read_block (write_block (toy_state 4 1 false) 0 [15]) 0 = [15] ∧
    (hash_state_fill toy_env (toy_state 4 1 false) [5] [1, 2]).state.bstream = 0 :=
  ⟨toy_stream_ok _ _,
    ((fill_derives_block0 toy_env (toy_state 4 1 false) [5] [1, 2]).2.1
      (toy_stream_ok _ _)).trans (by decide),
    ((fill_derives_block0 toy_env (toy_state 4 1 false) [5] [1, 2]).2.2 [0, 1, 2, 3] [15]
      rfl rfl (by decide)).1,
    (fill_derives_block0 toy_env (toy_state 4 1 false) [5] [1, 2]).1⟩

/-- C8 at a concrete state: a successful pass sets the flag, later calls keep
it. -/
theorem has_mixed_monotonic_witness :
    (toy_state 2 1 false).has_mixed = false ∧
    ((apply_op toy_env (toy_state 2 1 false) op.mix).state.has_mixed = true ↔
      (op.mix = op.mix ∧
        (apply_op toy_env (toy_state 2 1 false) op.mix).status
          = outcome.returned ERROR_NONE)) ∧
    (toy_state 2 1 true).has_mixed = true ∧
    (run_ops toy_env (toy_state 2 1 true)
      [op.fill [1] [2], op.mix, op.extract 2]).has_mixed = true :=
  ⟨rfl, (has_mixed_monotonic toy_env).2.2.2 (toy_state 2 1 false) op.mix rfl, rfl,
    (has_mixed_monotonic toy_env).2.2.1 (toy_state 2 1 true)
      [op.fill [1] [2], op.mix, op.extract 2] rfl⟩

/-- C10 at a concrete state of four blocks. -/
theorem block_indices_in_range_witness :
    rand_int_below toy_env ∧
    (hash_state_init toy_env (stale_state 7) (toy_options 4 2 3) [115, 97]
      (toy_malloc 9)).state.n_blocks ≠ 0 ∧
    (∀ j : Nat, event.block_index j ∈
        (hash_state_mix toy_env
          (run_ops toy_env (hash_state_init toy_env (stale_state 7) (toy_options 4 2 3)
            [115, 97] (toy_malloc 9)).state [op.fill [112] [115, 97], op.mix])).trace →
      j < (run_ops toy_env (hash_state_init toy_env (stale_state 7) (toy_options 4 2 3)
            [115, 97] (toy_malloc 9)).state [op.fill [112] [115, 97], op.mix]).n_blocks) ∧
    (∀ j : Nat, event.block_index j ∈
        (hash_state_extract toy_env
          (run_ops toy_env (hash_state_init toy_env (stale_state 7) (toy_options 4 2 3)
            [115, 97] (toy_malloc 9)).state [op.fill [112] [115, 97], op.mix]) 4).trace →
      j < (run_ops toy_env (hash_state_init toy_env (stale_state 7) (toy_options 4 2 3)
            [115, 97] (toy_malloc 9)).state [op.fill [112] [115, 97], op.mix]).n_blocks) :=
  ⟨toy_rand_int_below _ _, by decide,
    (block_indices_in_range toy_env (toy_rand_int_below _ _) (stale_state 7)
      (toy_options 4 2 3) [115, 97] (toy_malloc 9) [op.fill [112] [115, 97], op.mix] 4
      (by decide)).1,
    (block_indices_in_range toy_env (toy_rand_int_below _ _) (stale_state 7)
      (toy_options 4 2 3) [115, 97] (toy_malloc 9) [op.fill [112] [115, 97], op.mix] 4
      (by decide)).2.1⟩

/-! ## Initialisation, further -/

/-- C11, as amended: when `malloc` returns a null pointer `hash_state_init`
fails, with `ERROR_MALLOC` if the stream was seeded successfully and with the
status of the seeding otherwise; and it returns `ERROR_NONE` only if the
buffer was obtained (and is the one stored) and the stream was seeded from
the salt successfully. -/
theorem init_reports_failures {BS : Type} (env : primitives BS)
    (hne : env.ERROR_MALLOC ≠ ERROR_NONE) (s : hash_state BS) (opts : baghash_options)
    (salt : List Nat) (malloc : Nat → Option (List Nat)) :
    (malloc (init_size env opts) = none →
      (hash_state_init env s opts salt malloc).status ≠ outcome.returned ERROR_NONE ∧
      ((env.bitstream_init_with_seed salt).1 = 0 →
        (hash_state_init env s opts salt malloc).status
          = outcome.returned env.ERROR_MALLOC) ∧
      ((env.bitstream_init_with_seed salt).1 ≠ 0 →
        (hash_state_init env s opts salt malloc).status
          = outcome.returned (env.bitstream_init_with_seed salt).1)) ∧
    ((hash_state_init env s opts salt malloc).status = outcome.returned ERROR_NONE →
      (∃ buf, malloc (init_size env opts) = some buf ∧
        (hash_state_init env s opts salt malloc).state.buffer = some buf) ∧
      (env.bitstream_init_with_seed salt).1 = 0 ∧
      (hash_state_init env s opts salt malloc).state.bstream
        = (env.bitstream_init_with_seed salt).2) := by
  have hst := init_state env s opts salt malloc
  have hs := init_status env s opts salt malloc
  constructor
  · intro hnull
    rw [hs, hnull]
    by_cases h0 : (env.bitstream_init_with_seed salt).1 = 0
    · rw [if_neg (not_not.2 h0)]
      refine ⟨?_, fun _ => by simp, fun h => absurd h0 h⟩
      intro hc
      injection hc with hc
      simp at hc
      exact hne hc
    · rw [if_pos h0]
      refine ⟨?_, fun h => absurd h h0, fun _ => rfl⟩
      intro hc
      injection hc with hc
      exact h0 hc
  · intro hok
    rw [hs] at hok
    by_cases h0 : (env.bitstream_init_with_seed salt).1 = 0
    · rw [if_neg (not_not.2 h0)] at hok
      injection hok with hok
      cases hm : malloc (init_size env opts) with
      | none =>
        rw [hm] at hok
        simp at hok
        exact absurd hok hne
      | some buf =>
        refine ⟨⟨buf, rfl, ?_⟩, h0, ?_⟩
        · rw [hst, hm]
        · rw [hst]
    · rw [if_pos h0] at hok
      injection hok with hok
      exact absurd hok h0

/-- C11, counterexample: when `malloc` returns a null pointer and the seeding
of the stream fails with status 5, `hash_state_init` returns 5, which is not
`ERROR_MALLOC`. -/
theorem init_null_buffer_reports_seed_error :
    null_malloc (init_size (faulty_primitives 0 5 0 0) (toy_options 4 1 1)) = none ∧
    (hash_state_init (faulty_primitives 0 5 0 0) (stale_state 7) (toy_options 4 1 1) [1, 2]
      null_malloc).status = outcome.returned 5 ∧
    (hash_state_init (faulty_primitives 0 5 0 0) (stale_state 7) (toy_options 4 1 1) [1, 2]
      null_malloc).status ≠ outcome.returned (faulty_primitives 0 5 0 0).ERROR_MALLOC ∧
    (hash_state_init (faulty_primitives 0 5 0 0) (stale_state 7) (toy_options 4 1 1) [1, 2]
      null_malloc).state.buffer = none := by
  refine ⟨rfl, ?_, ?_, ?_⟩ <;> decide

/-- C11 at concrete inputs: a null pointer with a seeded stream gives
`ERROR_MALLOC`, a null pointer with a failed seeding gives the status of the
seeding, and a success comes with the buffer. -/
theorem init_reports_failures_witness :
    toy_env.ERROR_MALLOC ≠ ERROR_NONE ∧
    null_malloc (init_size toy_env (toy_options 4 1 1)) = none ∧
    (hash_state_init toy_env (stale_state 7) (toy_options 4 1 1) [1, 2] null_malloc).status
      = outcome.returned 1 ∧
    (hash_state_init toy_env (stale_state 7) (toy_options 4 1 1) [1, 2]
      (toy_malloc 9)).status = outcome.returned ERROR_NONE ∧
    (∃ buf, toy_malloc 9 (init_size toy_env (toy_options 4 1 1)) = some buf ∧
      (hash_state_init toy_env (stale_state 7) (toy_options 4 1 1) [1, 2]
        (toy_malloc 9)).state.buffer = some buf) :=
  ⟨by decide, rfl,
    ((init_reports_failures toy_env (by decide) (stale_state 7) (toy_options 4 1 1) [1, 2]
      null_malloc).1 rfl).2.1 rfl,
    by decide,
    ((init_reports_failures toy_env (by decide) (stale_state 7) (toy_options 4 1 1) [1, 2]
      (toy_malloc 9)).2 (by decide)).1⟩

/-- C16, as amended: for every derived block count `d` below `2^64 - 1`,
`hash_state_init` sets `n_blocks` to `d` when `d` is even and to `d + 1` when
`d` is odd, so `n_blocks` is the least even number that is at least `d`, and
it is positive whenever `d` is. -/
theorem init_n_blocks_next_even {BS : Type} (env : primitives BS) (s : hash_state BS)
    (opts : baghash_options) (salt : List Nat) (malloc : Nat → Option (List Nat))
    (hd : env.options_n_blocks opts + 1 < SIZE_MOD) :
    (env.options_n_blocks opts % 2 = 0 →
      (hash_state_init env s opts salt malloc).state.n_blocks = env.options_n_blocks opts) ∧
    (env.options_n_blocks opts % 2 = 1 →
      (hash_state_init env s opts salt malloc).state.n_blocks
        = env.options_n_blocks opts + 1) ∧
    (hash_state_init env s opts salt malloc).state.n_blocks % 2 = 0 ∧
    env.options_n_blocks opts ≤ (hash_state_init env s opts salt malloc).state.n_blocks ∧
    (∀ m : Nat, m % 2 = 0 → env.options_n_blocks opts ≤ m →
      (hash_state_init env s opts salt malloc).state.n_blocks ≤ m) ∧
    (0 < env.options_n_blocks opts →
      0 < (hash_state_init env s opts salt malloc).state.n_blocks) := by
  rw [init_state]
  simp only [init_n_blocks]
  rw [size_mod_eq] at hd ⊢
  refine ⟨?_, ?_, ?_, ?_, ?_, ?_⟩
  · intro h; split_ifs <;> omega
  · intro h; split_ifs <;> omega
  · split_ifs <;> omega
  · split_ifs <;> omega
  · intro m hm hle; split_ifs <;> omega
  · intro h; split_ifs <;> omega

/-- C16, counterexample: for the odd derived block count `2^64 - 1` the
increment wraps and `hash_state_init` sets `n_blocks` to 0, which is neither
`d + 1`, nor at least `d`, nor positive. -/
theorem init_n_blocks_wraps_to_zero :
    (toy_primitives (fun o => o.m_cost * 4294967297) 1).options_n_blocks
      (toy_options 4294967295 1 1) = 18446744073709551615 ∧
    18446744073709551615 % 2 = 1 ∧
    (hash_state_init (toy_primitives (fun o => o.m_cost * 4294967297) 1) (stale_state 7)
      (toy_options 4294967295 1 1) [1, 2] (toy_malloc 9)).state.n_blocks = 0 ∧
    (hash_state_init (toy_primitives (fun o => o.m_cost * 4294967297) 1) (stale_state 7)
      (toy_options 4294967295 1 1) [1, 2] (toy_malloc 9)).state.n_blocks
      ≠ 18446744073709551615 + 1 ∧
    ¬ (0 < (hash_state_init (toy_primitives (fun o => o.m_cost * 4294967297) 1)
      (stale_state 7) (toy_options 4294967295 1 1) [1, 2] (toy_malloc 9)).state.n_blocks) := by
  refine ⟨?_, ?_, ?_, ?_, ?_⟩ <;> decide

/-- C16 at concrete inputs: the odd count 3 becomes 4. -/
theorem init_n_blocks_next_even_witness :
    toy_env.options_n_blocks (toy_options 3 1 1) + 1 < SIZE_MOD ∧
    toy_env.options_n_blocks (toy_options 3 1 1) % 2 = 1 ∧
    (hash_state_init toy_env (stale_state 7) (toy_options 3 1 1) [1, 2]
      (toy_malloc 9)).state.n_blocks = 4 :=
  ⟨by decide, by decide,
    (init_n_blocks_next_even toy_env (stale_state 7) (toy_options 3 1 1) [1, 2]
      (toy_malloc 9) (by decide)).2.1 (by decide)⟩

/-! ## Teardown -/

theorem free_frees_iff {BS : Type} (env : primitives BS) (s : hash_state BS) :
    ((hash_state_free env s).buffer_freed = true ↔ env.bitstream_free s.bstream = 0) ∧
    (hash_state_free env s).status =
      (if env.bitstream_free s.bstream ≠ 0 then env.bitstream_free s.bstream
        else ERROR_NONE) := by
  unfold hash_state_free
  simp only []
  split_ifs with h
  · simp [h]
  · simp only [ne_eq, not_not] at h
    simp [h]

/-- C17: `hash_state_free` does not free the buffer on every call.  When the
release of the stream fails, here with status 5, `hash_state_free` returns
that status at once and `free` is not reached. -/
theorem free_skips_buffer_on_stream_error :
    hash_state_free (faulty_primitives 0 0 0 5) (toy_state 4 1 true) =
      { status := 5, buffer_freed := false } ∧
    hash_state_free toy_env (toy_state 4 1 true) =
      { status := ERROR_NONE, buffer_freed := true } := by
  constructor <;> decide

/-! ## The previous block -/

/-- C18: for an even, positive `n_blocks` and a block `i` below it, the
previous block that `hash_state_mix` uses is not block `i`: for `i = 0` it is
the block at the index `n_blocks - 1` that `block_last` computes, which is not
0, for `i > 0` it is block `i - 1`; and in a buffer of non-empty blocks whose
size did not wrap the two pointers differ. -/
theorem prev_block_differs {BS : Type} (s : hash_state BS) (i : Nat)
    (heven : s.n_blocks % 2 = 0) (hpos : 0 < s.n_blocks) (hi : i < s.n_blocks) :
    (i = 0 →
      prev_block s i = block_index s (block_last_index s) ∧
      cur_prev_trace s i =
        [event.block_index i, event.block_index (block_last_index s)] ∧
      block_last_index s ≠ i ∧
      (s.n_blocks < SIZE_MOD → block_last_index s = s.n_blocks - 1)) ∧
    (0 < i → prev_block s i = block_index s (i - 1) ∧ i - 1 ≠ i) ∧
    (0 < s.block_size → s.n_blocks * s.block_size < SIZE_MOD →
      prev_block s i ≠ block_index s i) := by
  refine ⟨?_, ?_, ?_⟩
  · intro h0
    subst h0
    refine ⟨prev_block_zero s, ?_, ?_, ?_⟩
    · unfold cur_prev_trace
      rw [if_neg (by simp)]
    · unfold block_last_index
      rw [size_mod_eq]
      omega
    · intro hlt
      unfold block_last_index
      rw [size_mod_eq] at hlt ⊢
      omega
  · intro h0
    exact ⟨prev_block_eq s i h0, by omega⟩
  · intro hb hov
    rw [prev_block_index s hov i hi, block_index_eq s hov i hi]
    intro hc
    have := Nat.eq_of_mul_eq_mul_left hb hc
    split_ifs at this <;> omega

/-- C18 at a concrete state of four one-byte blocks. -/
theorem prev_block_differs_witness :
    (toy_state 4 1 false).n_blocks % 2 = 0 ∧ 0 < (toy_state 4 1 false).n_blocks ∧
    block_last_index (toy_state 4 1 false) ≠ 0 ∧
    prev_block (toy_state 4 1 false) 0 ≠ block_index (toy_state 4 1 false) 0 ∧
    prev_block (toy_state 4 1 false) 3 = block_index (toy_state 4 1 false) (3 - 1) :=
  ⟨by decide, by decide,
    ((prev_block_differs (toy_state 4 1 false) 0 (by decide) (by decide) (by decide)).1
      rfl).2.2.1,
    (prev_block_differs (toy_state 4 1 false) 0 (by decide) (by decide) (by decide)).2.2
      (by decide) (by decide),
    ((prev_block_differs (toy_state 4 1 false) 3 (by decide) (by decide) (by decide)).2.1
      (by decide)).1⟩

/-! ## One round of the mixing pass -/

theorem mix_block_of_draws_failed {BS : Type} (env : primitives BS) (s : hash_state BS)
    (i : Nat)
    (h : (pick_neighbors env s.n_blocks (n_blocks_to_hash s - 2) s.bstream).error ≠ 0) :
    mix_block env s i =
      { status := outcome.returned
          (pick_neighbors env s.n_blocks (n_blocks_to_hash s - 2) s.bstream).error,
        state := { s with
          bstream := (pick_neighbors env s.n_blocks (n_blocks_to_hash s - 2) s.bstream).bstream },
        out := none,
        trace := cur_prev_trace s i ++
          (pick_neighbors env s.n_blocks (n_blocks_to_hash s - 2) s.bstream).trace } := by
  unfold mix_block
  simp only []
  rw [if_pos h]

theorem mix_block_of_draws_ok {BS : Type} (env : primitives BS) (s : hash_state BS)
    (i : Nat)
    (h : (pick_neighbors env s.n_blocks (n_blocks_to_hash s - 2) s.bstream).error = 0)
    (hbs : s.block_size = env.compress_block_size s.opts.comp) :
    mix_block env s i =
      { status := outcome.returned (env.compress s.opts.comp (compress_inputs env s i)).1,
        state := write_block { s with
            bstream := (pick_neighbors env s.n_blocks (n_blocks_to_hash s - 2) s.bstream).bstream }
          (block_index s i) (env.compress s.opts.comp (compress_inputs env s i)).2,
        out := none,
        trace := cur_prev_trace s i ++
          (pick_neighbors env s.n_blocks (n_blocks_to_hash s - 2) s.bstream).trace ++
          [event.compress (n_blocks_to_hash s)] } := by
  unfold mix_block compress_inputs
  simp only []
  rw [if_neg (not_not.2 h), if_neg (not_not.2 hbs)]
  rfl

theorem count_draws_append (a b : List event) :
    count_draws (a ++ b) = count_draws a + count_draws b := by
  induction a with
  | nil => simp [count_draws]
  | cons e t ih =>
    cases e <;> simp [count_draws, ih]
    omega

theorem count_draws_cur_prev {BS : Type} (s : hash_state BS) (i : Nat) :
    count_draws (cur_prev_trace s i) = 0 := by
  unfold cur_prev_trace
  split_ifs <;> rfl

theorem pick_neighbors_count {BS : Type} (env : primitives BS) (max count : Nat) :
    ∀ st : BS, (pick_neighbors env max count st).error = 0 →
      count_draws (pick_neighbors env max count st).trace = count ∧
      (pick_neighbors env max count st).neighbors.length = count := by
  induction count with
  | zero => intro st _; simp [pick_neighbors, count_draws]
  | succ k ih =>
    intro st h
    simp only [pick_neighbors] at h ⊢
    split_ifs at h ⊢ with h1
    · exact absurd h h1
    · have h2 := ih _ h
      simp [count_draws, h2.1, h2.2]

/-- When the sum `n_neighbors + 2` does not wrap, a round whose draws succeed
makes `n_neighbors` draws and hands `compress` `n_neighbors + 2` blocks. -/
theorem mix_block_input_count {BS : Type} (env : primitives BS) (s : hash_state BS)
    (i : Nat) (hk : s.opts.n_neighbors + 2 < UINT_MOD)
    (h : (pick_neighbors env s.n_blocks (n_blocks_to_hash s - 2) s.bstream).error = 0) :
    n_blocks_to_hash s = s.opts.n_neighbors + 2 ∧
    (compress_inputs env s i).length = s.opts.n_neighbors + 2 ∧
    count_draws (pick_neighbors env s.n_blocks (n_blocks_to_hash s - 2) s.bstream).trace
      = s.opts.n_neighbors := by
  have hc := n_blocks_to_hash_eq s hk
  have hp := pick_neighbors_count env s.n_blocks (n_blocks_to_hash s - 2) s.bstream h
  refine ⟨hc, ?_, by rw [hp.1, hc]; omega⟩
  unfold compress_inputs
  simp only [List.length_map, List.length_take, List.length_append, List.length_cons,
    List.length_nil]
  rw [hp.2, hc]
  omega

/-- C13: at the top of the range of `n_neighbors` the round of a block does
not hand `n_neighbors + 2` blocks to `compress` and does not make
`n_neighbors` draws.  With `n_neighbors = 4294967294` the sum
`n_neighbors + 2` wraps to 0: the round makes no draw and `compress` is called
with a count of 0 and no input block; with `n_neighbors = 4294967295` the
count is 1 and the only input is the previous block. -/
theorem mix_block_wraps_input_count :
    n_blocks_to_hash (toy_state 2 4294967294 false) = 0 ∧
    (mix_block toy_env (toy_state 2 4294967294 false) 0).status = outcome.returned 0 ∧
    (mix_block toy_env (toy_state 2 4294967294 false) 0).trace =
      [event.block_index 0, event.block_index 1, event.compress 0] ∧
    compress_inputs toy_env (toy_state 2 4294967294 false) 0 = [] ∧
    count_draws (mix_block toy_env (toy_state 2 4294967294 false) 0).trace = 0 ∧
    n_blocks_to_hash (toy_state 2 4294967295 false) = 1 ∧
    (mix_block toy_env (toy_state 2 4294967295 false) 0).trace =
      [event.block_index 0, event.block_index 1, event.compress 1] ∧
    compress_inputs toy_env (toy_state 2 4294967295 false) 0 = [[1]] := by
  refine ⟨?_, ?_, ?_, ?_, ?_, ?_, ?_, ?_⟩ <;> decide

/-! ## The mixing pass round by round -/

theorem mix_block_out {BS : Type} (env : primitives BS) (s : hash_state BS) (i : Nat) :
    (mix_block env s i).out = none := by
  unfold mix_block
  simp only []
  split_ifs <;> rfl

theorem mix_upto_succ {BS : Type} (env : primitives BS) (s : hash_state BS) (i : Nat)
    (h : (mix_upto env s i).status = outcome.returned 0) :
    mix_upto env s (i + 1) =
      { status := (mix_block env (mix_upto env s i).state i).status,
        state := (mix_block env (mix_upto env s i).state i).state,
        out := none,
        trace := (mix_upto env s i).trace ++ (mix_block env (mix_upto env s i).state i).trace } := by
  simp only [mix_upto]
  rw [if_neg (not_not.2 h)]
  simp only [mix_block_out]

theorem mix_upto_stuck {BS : Type} (env : primitives BS) (s : hash_state BS) (j : Nat)
    (h : (mix_upto env s j).status ≠ outcome.returned 0) (m : Nat) :
    mix_upto env s (j + m) = mix_upto env s j := by
  induction m with
  | zero => rfl
  | succ m ih =>
    have e : j + (m + 1) = (j + m) + 1 := by omega
    rw [e]
    simp only [mix_upto]
    rw [ih, if_pos h]

theorem mix_upto_ok_before {BS : Type} (env : primitives BS) (s : hash_state BS)
    (i j : Nat) (hij : j ≤ i) (h : (mix_upto env s i).status = outcome.returned 0) :
    (mix_upto env s j).status = outcome.returned 0 := by
  by_contra hc
  obtain ⟨m, rfl⟩ : ∃ m, i = j + m := ⟨i - j, by omega⟩
  rw [mix_upto_stuck env s j hc m] at h
  exact hc h

theorem mix_upto_fields {BS : Type} (env : primitives BS) (s : hash_state BS) (i : Nat) :
    (mix_upto env s i).state.n_blocks = s.n_blocks ∧
    (mix_upto env s i).state.block_size = s.block_size ∧
    (mix_upto env s i).state.opts = s.opts ∧
    (mix_upto env s i).state.has_mixed = s.has_mixed ∧
    (mix_upto env s i).out = none := by
  induction i with
  | zero => exact ⟨rfl, rfl, rfl, rfl, rfl⟩
  | succ i ih =>
    by_cases h : (mix_upto env s i).status = outcome.returned 0
    · rw [mix_upto_succ env s i h]
      have hb := mix_block_fields env (mix_upto env s i).state i
      exact ⟨hb.1.trans ih.1, hb.2.1.trans ih.2.1, hb.2.2.1.trans ih.2.2.1,
        hb.2.2.2.1.trans ih.2.2.2.1, rfl⟩
    · have e := mix_upto_stuck env s i h 1
      rw [e]
      exact ih

/-- The rest of the outer loop, started after `i` successful rounds, ends as
the rounds up to `i + todo` do, with `has_mixed` set if none of them failed. -/
theorem mix_loop_upto {BS : Type} (env : primitives BS) (s : hash_state BS) (todo : Nat) :
    ∀ i : Nat, (mix_upto env s i).status = outcome.returned 0 →
      (mix_loop env todo i (mix_upto env s i).state).status =
        (if (mix_upto env s (i + todo)).status = outcome.returned 0
          then outcome.returned ERROR_NONE else (mix_upto env s (i + todo)).status) ∧
      (mix_loop env todo i (mix_upto env s i).state).state =
        (if (mix_upto env s (i + todo)).status = outcome.returned 0
          then { (mix_upto env s (i + todo)).state with has_mixed := true }
          else (mix_upto env s (i + todo)).state) ∧
      (mix_loop env todo i (mix_upto env s i).state).out = none ∧
      (mix_upto env s i).trace ++ (mix_loop env todo i (mix_upto env s i).state).trace =
        (mix_upto env s (i + todo)).trace := by
  induction todo with
  | zero =>
    intro i h
    simp only [mix_loop, Nat.add_zero, h, if_true, List.append_nil]
    exact ⟨trivial, trivial, trivial, trivial⟩
  | succ todo ih =>
    intro i h
    have e : i + (todo + 1) = (i + 1) + todo := by omega
    rw [e]
    have hs := mix_upto_succ env s i h
    simp only [mix_loop]
    by_cases hb : (mix_block env (mix_upto env s i).state i).status = outcome.returned 0
    · rw [if_neg (not_not.2 hb)]
      have hs1 : (mix_upto env s (i + 1)).status = outcome.returned 0 := by rw [hs]; exact hb
      have hst : (mix_upto env s (i + 1)).state = (mix_block env (mix_upto env s i).state i).state := by
        rw [hs]
      have htr : (mix_upto env s (i + 1)).trace =
          (mix_upto env s i).trace ++ (mix_block env (mix_upto env s i).state i).trace := by
        rw [hs]
      have h2 := ih (i + 1) hs1
      rw [hst] at h2
      refine ⟨h2.1, h2.2.1, h2.2.2.1, ?_⟩
      simp only []
      rw [← List.append_assoc, ← htr]
      exact h2.2.2.2
    · rw [if_pos hb]
      have hs1 : (mix_upto env s (i + 1)).status ≠ outcome.returned 0 := by rw [hs]; exact hb
      rw [mix_upto_stuck env s (i + 1) hs1 todo]
      simp only [if_neg hs1]
      rw [hs]
      exact ⟨rfl, rfl, mix_block_out _ _ _, rfl⟩

/-- The mixing pass is its `n_blocks` rounds, followed by the setting of
`has_mixed` if none of them failed. -/
theorem mix_eq_upto {BS : Type} (env : primitives BS) (s : hash_state BS) :
    hash_state_mix env s =
      (if (mix_upto env s s.n_blocks).status = outcome.returned 0
        then { status := outcome.returned ERROR_NONE,
               state := { (mix_upto env s s.n_blocks).state with has_mixed := true },
               out := none, trace := (mix_upto env s s.n_blocks).trace }
        else mix_upto env s s.n_blocks) := by
  have h := mix_loop_upto env s s.n_blocks 0 rfl
  rw [Nat.zero_add] at h
  have hout := (mix_upto_fields env s s.n_blocks).2.2.2.2
  have h0 : (mix_upto env s 0).state = s := rfl
  have ht0 : (mix_upto env s 0).trace = [] := rfl
  rw [h0, ht0, List.nil_append] at h
  unfold hash_state_mix
  obtain ⟨h1, h2, h3, h4⟩ := h
  cases hm : mix_loop env s.n_blocks 0 s with
  | mk st sta o tr =>
    rw [hm] at h1 h2 h3 h4
    simp only [] at h1 h2 h3 h4
    subst h1 h2 h3 h4
    split_ifs with hc
    · rfl
    · cases hu : mix_upto env s s.n_blocks with
      | mk st2 sta2 o2 tr2 =>
        rw [hu] at hout
        simp only [] at hout
        subst hout
        rfl

/-- A round that fails is the end of the pass: its status, its state, and no
call after its own. -/
theorem mix_of_failed_round {BS : Type} (env : primitives BS) (s : hash_state BS)
    (i : Nat) (hi : i < s.n_blocks)
    (hprev : (mix_upto env s i).status = outcome.returned 0)
    (hfail : (mix_block env (mix_upto env s i).state i).status ≠ outcome.returned 0) :
    hash_state_mix env s =
      { status := (mix_block env (mix_upto env s i).state i).status,
        state := (mix_block env (mix_upto env s i).state i).state,
        out := none,
        trace := (mix_upto env s i).trace ++ (mix_block env (mix_upto env s i).state i).trace } := by
  have hs := mix_upto_succ env s i hprev
  have hs1 : (mix_upto env s (i + 1)).status ≠ outcome.returned 0 := by rw [hs]; exact hfail
  obtain ⟨m, hm⟩ : ∃ m, s.n_blocks = (i + 1) + m := ⟨s.n_blocks - (i + 1), by omega⟩
  have hn : mix_upto env s s.n_blocks = mix_upto env s (i + 1) := by
    rw [hm]
    exact mix_upto_stuck env s (i + 1) hs1 m
  rw [mix_eq_upto, hn, if_neg hs1, hs]

/-! ## The draws of one round -/

/-- The neighbour loop ends at its first failing draw: if the first `k` draws
succeed and the next one returns `e`, the loop returns `e` having made
`k + 1` draws, however many were still to come. -/
theorem pick_neighbors_first_failure {BS : Type} (env : primitives BS) (max : Nat)
    (e : Int) (he : e ≠ 0) (k : Nat) :
    ∀ (togo : Nat) (st : BS), (pick_neighbors env max k st).error = 0 →
      (env.bitstream_rand_int (pick_neighbors env max k st).bstream max).1 = e →
      (pick_neighbors env max (k + 1 + togo) st).error = e ∧
      (pick_neighbors env max (k + 1 + togo) st).bstream =
        (env.bitstream_rand_int (pick_neighbors env max k st).bstream max).2.1 ∧
      (pick_neighbors env max (k + 1 + togo) st).trace =
        (pick_neighbors env max k st).trace ++ [event.rand_int max] := by
  induction k with
  | zero =>
    intro togo st _ h2
    have e1 : 0 + 1 + togo = togo + 1 := by omega
    rw [e1]
    simp only [pick_neighbors] at h2 ⊢
    rw [if_pos (by rw [h2]; exact he)]
    exact ⟨h2, rfl, rfl⟩
  | succ k ih =>
    intro togo st h1 h2
    have e1 : k + 1 + 1 + togo = (k + 1 + togo) + 1 := by omega
    rw [e1]
    simp only [pick_neighbors] at h1 h2 ⊢
    split_ifs at h1 h2 ⊢ with hr
    · exact absurd h1 hr
    · have h3 := ih togo _ h1 h2
      exact ⟨h3.1, h3.2.1, by simp [h3.2.2]⟩

/-- A failing neighbour loop failed at some draw, after which it made no
other. -/
theorem pick_neighbors_failure_point {BS : Type} (env : primitives BS) (max : Nat)
    (count : Nat) :
    ∀ st : BS, (pick_neighbors env max count st).error ≠ 0 →
      ∃ k togo : Nat, count = k + 1 + togo ∧ (pick_neighbors env max k st).error = 0 ∧
        (env.bitstream_rand_int (pick_neighbors env max k st).bstream max).1 =
          (pick_neighbors env max count st).error := by
  induction count with
  | zero => intro st h; simp [pick_neighbors] at h
  | succ c ih =>
    intro st h
    simp only [pick_neighbors] at h ⊢
    split_ifs at h ⊢ with hr
    · exact ⟨0, c, by omega, rfl, rfl⟩
    · obtain ⟨k, togo, hc, hk1, hk2⟩ := ih _ h
      refine ⟨k + 1, togo, by omega, ?_, ?_⟩
      · simp only [pick_neighbors]
        rw [if_neg hr]
        exact hk1
      · simp only [pick_neighbors]
        rw [if_neg hr]
        exact hk2

theorem n_blocks_to_hash_congr {BS : Type} (s t : hash_state BS) (h : t.opts = s.opts) :
    n_blocks_to_hash t = n_blocks_to_hash s := by
  unfold n_blocks_to_hash
  rw [h]

/-- C12: let the rounds of the blocks before block `i` have succeeded.  If in
the round of block `i` the first `k` draws succeed and the next draw returns
`e ≠ 0`, `hash_state_mix` returns `e`, and its last call is that draw: the
draws still to come, the `compress` call of the round and the later rounds
are not made.  If the draws of the round succeed and `compress` returns
`e ≠ 0`, `hash_state_mix` returns `e`, and its last call is that `compress`
call.  In both cases `has_mixed` keeps its value. -/
theorem mix_returns_first_error {BS : Type} (env : primitives BS) (s : hash_state BS)
    (i : Nat) (hi : i < s.n_blocks)
    (hprev : (mix_upto env s i).status = outcome.returned 0) (e : Int) (he : e ≠ 0) :
    (∀ k togo : Nat, k + 1 + togo = n_blocks_to_hash s - 2 →
      (pick_neighbors env s.n_blocks k (mix_upto env s i).state.bstream).error = 0 →
      (env.bitstream_rand_int
        (pick_neighbors env s.n_blocks k (mix_upto env s i).state.bstream).bstream
        s.n_blocks).1 = e →
      hash_state_mix env s =
        { status := outcome.returned e,
          state := { (mix_upto env s i).state with
            bstream := (env.bitstream_rand_int
              (pick_neighbors env s.n_blocks k (mix_upto env s i).state.bstream).bstream
              s.n_blocks).2.1 },
          out := none,
          trace := (mix_upto env s i).trace ++
            (cur_prev_trace (mix_upto env s i).state i ++
              ((pick_neighbors env s.n_blocks k (mix_upto env s i).state.bstream).trace ++
                [event.rand_int s.n_blocks])) } ∧
      (hash_state_mix env s).state.has_mixed = s.has_mixed) ∧
    ((pick_neighbors env s.n_blocks (n_blocks_to_hash s - 2)
        (mix_upto env s i).state.bstream).error = 0 →
      s.block_size = env.compress_block_size s.opts.comp →
      (env.compress s.opts.comp (compress_inputs env (mix_upto env s i).state i)).1 = e →
      hash_state_mix env s =
        { status := outcome.returned e,
          state := write_block { (mix_upto env s i).state with
              bstream := (pick_neighbors env s.n_blocks (n_blocks_to_hash s - 2)
                (mix_upto env s i).state.bstream).bstream }
            (block_index (mix_upto env s i).state i)
            (env.compress s.opts.comp (compress_inputs env (mix_upto env s i).state i)).2,
          out := none,
          trace := (mix_upto env s i).trace ++
            (cur_prev_trace (mix_upto env s i).state i ++
              (pick_neighbors env s.n_blocks (n_blocks_to_hash s - 2)
                (mix_upto env s i).state.bstream).trace ++
              [event.compress (n_blocks_to_hash s)]) } ∧
      (hash_state_mix env s).state.has_mixed = s.has_mixed) := by
  have hf := mix_upto_fields env s i
  have hnh := n_blocks_to_hash_congr s (mix_upto env s i).state hf.2.2.1
  constructor
  · intro k togo hcount hk1 hk2
    have hp := pick_neighbors_first_failure env s.n_blocks e he k togo _ hk1 hk2
    rw [hcount] at hp
    have hderr : (pick_neighbors env (mix_upto env s i).state.n_blocks
        (n_blocks_to_hash (mix_upto env s i).state - 2)
        (mix_upto env s i).state.bstream).error ≠ 0 := by
      rw [hf.1, hnh, hp.1]
      exact he
    have hb := mix_block_of_draws_failed env (mix_upto env s i).state i hderr
    rw [hf.1, hnh, hp.1, hp.2.1, hp.2.2] at hb
    have hfail : (mix_block env (mix_upto env s i).state i).status ≠ outcome.returned 0 := by
      rw [hb]
      intro hc
      injection hc with hc
      exact he hc
    have hm := mix_of_failed_round env s i hi hprev hfail
    rw [hb] at hm
    refine ⟨hm.trans ?_, ?_⟩
    · rw [← hf.1]
    · rw [hm]
      exact hf.2.2.2.1
  · intro hd hbs hc
    have hd2 : (pick_neighbors env (mix_upto env s i).state.n_blocks
        (n_blocks_to_hash (mix_upto env s i).state - 2)
        (mix_upto env s i).state.bstream).error = 0 := by
      rw [hf.1, hnh]
      exact hd
    have hbs2 : (mix_upto env s i).state.block_size =
        env.compress_block_size (mix_upto env s i).state.opts.comp := by
      rw [hf.2.1, hf.2.2.1]
      exact hbs
    have hb := mix_block_of_draws_ok env (mix_upto env s i).state i hd2 hbs2
    rw [hf.1, hnh, hf.2.2.1, hc] at hb
    have hfail : (mix_block env (mix_upto env s i).state i).status ≠ outcome.returned 0 := by
      rw [hb]
      intro hc2
      injection hc2 with hc2
      exact he hc2
    have hm := mix_of_failed_round env s i hi hprev hfail
    rw [hb] at hm
    refine ⟨hm.trans ?_, ?_⟩
    · rw [← hf.1, ← hf.2.2.1]
    · rw [hm]
      exact ((write_block_fields _ _ _).2.2.2.1).trans hf.2.2.2.1

/-- C12 at concrete states of four blocks with three neighbours: the draw
made at stream counter 4, the second draw of block 1, fails with status 7;
and a `compress` that fails with status 9 in the round of block 0. -/
theorem mix_returns_first_error_witness :
    (mix_upto (faulty_primitives 4 0 0 0) (toy_state 4 3 true) 1).status
      = outcome.returned 0 ∧
    ((faulty_primitives 4 0 0 0).bitstream_rand_int
      (pick_neighbors (faulty_primitives 4 0 0 0) 4 1
        (mix_upto (faulty_primitives 4 0 0 0) (toy_state 4 3 true) 1).state.bstream).bstream
      4 = (7, 5, 0)) ∧
    (hash_state_mix (faulty_primitives 4 0 0 0) (toy_state 4 3 true)).status
      = outcome.returned 7 ∧
    (hash_state_mix (faulty_primitives 4 0 0 0) (toy_state 4 3 true)).trace =
      [event.block_index 0, event.block_index 3,
        event.rand_int 4, event.block_index 0, event.rand_int 4, event.block_index 1,
        event.rand_int 4, event.block_index 2, event.compress 5,
        event.block_index 1, event.rand_int 4, event.block_index 3, event.rand_int 4] ∧
    (hash_state_mix (faulty_primitives 4 0 0 0) (toy_state 4 3 true)).state.has_mixed
      = true ∧
    (hash_state_mix (faulty_primitives 4 0 0 0) (toy_state 4 3 false)).state.has_mixed
      = false ∧
    (hash_state_mix (faulty_primitives 1000 0 9 0) (toy_state 4 3 false)).status
      = outcome.returned 9 ∧
    (hash_state_mix (faulty_primitives 1000 0 9 0) (toy_state 4 3 false)).trace =
      [event.block_index 0, event.block_index 3,
        event.rand_int 4, event.block_index 0, event.rand_int 4, event.block_index 1,
        event.rand_int 4, event.block_index 2, event.compress 5] :=
  ⟨by decide, by decide,
    congrArg result.status
      (((mix_returns_first_error (faulty_primitives 4 0 0 0) (toy_state 4 3 true) 1
        (by decide) (by decide) 7 (by decide)).1 1 1 (by decide) (by decide)
        (by decide)).1),
    (congrArg result.trace
      (((mix_returns_first_error (faulty_primitives 4 0 0 0) (toy_state 4 3 true) 1
        (by decide) (by decide) 7 (by decide)).1 1 1 (by decide) (by decide)
        (by decide)).1)).trans (by decide),
    (((mix_returns_first_error (faulty_primitives 4 0 0 0) (toy_state 4 3 true) 1
        (by decide) (by decide) 7 (by decide)).1 1 1 (by decide) (by decide)
        (by decide)).2),
    (((mix_returns_first_error (faulty_primitives 4 0 0 0) (toy_state 4 3 false) 1
        (by decide) (by decide) 7 (by decide)).1 1 1 (by decide) (by decide)
        (by decide)).2),
    congrArg result.status
      (((mix_returns_first_error (faulty_primitives 1000 0 9 0) (toy_state 4 3 false) 0
        (by decide) (by decide) 9 (by decide)).2 (by decide) (by decide)
        (by decide)).1),
    (congrArg result.trace
      (((mix_returns_first_error (faulty_primitives 1000 0 9 0) (toy_state 4 3 false) 0
        (by decide) (by decide) 9 (by decide)).2 (by decide) (by decide)
        (by decide)).1)).trans (by decide)⟩

/-! ## What the rounds leave in the buffer -/

theorem blocks_of_congr {BS : Type} (s t : hash_state BS) (hn : t.n_blocks = s.n_blocks)
    (hb : t.block_size = s.block_size) (hbuf : t.buffer = s.buffer) :
    blocks_of t = blocks_of s := by
  unfold blocks_of read_block buffer_bytes
  rw [hn, hb, hbuf]

theorem mix_block_draws_ok_of_status {BS : Type} (env : primitives BS) (s : hash_state BS)
    (i : Nat) (h : (mix_block env s i).status = outcome.returned 0) :
    (pick_neighbors env s.n_blocks (n_blocks_to_hash s - 2) s.bstream).error = 0 := by
  by_contra hc
  rw [mix_block_of_draws_failed env s i hc] at h
  injection h with h
  exact hc h

/-- A round whose draws succeed replaces block `i` by what `compress` stores
and leaves the other blocks alone, the buffer staying as large as it was. -/
theorem mix_block_sets_block {BS : Type} (env : primitives BS) (hc : compress_exact env)
    (s : hash_state BS) (hs : buffer_sized env s) (i : Nat) (hi : i < s.n_blocks)
    (hd : (pick_neighbors env s.n_blocks (n_blocks_to_hash s - 2) s.bstream).error = 0) :
    blocks_of (mix_block env s i).state =
      (blocks_of s).set i (env.compress s.opts.comp (compress_inputs env s i)).2 ∧
    buffer_sized env (mix_block env s i).state := by
  obtain ⟨⟨buf, hb, hlen⟩, hov, hbs⟩ := hs
  rw [mix_block_of_draws_ok env s i hd hbs]
  simp only []
  rw [block_index_eq s hov i hi]
  have hw := blocks_of_write { s with
      bstream := (pick_neighbors env s.n_blocks (n_blocks_to_hash s - 2) s.bstream).bstream }
    buf hb hlen i hi (env.compress s.opts.comp (compress_inputs env s i)).2
    (by rw [hc]; exact hbs.symm)
  refine ⟨hw, ⟨?_, hov, hbs⟩⟩
  refine ⟨write_bytes buf (s.block_size * i)
    (env.compress s.opts.comp (compress_inputs env s i)).2, ?_, ?_⟩
  · simp [write_block, hb]
  · rw [write_bytes_length]
    exact hlen

theorem getD_set_self (l : List (List Nat)) (i : Nat) (a : List Nat) (h : i < l.length) :
    (l.set i a).getD i [] = a := by
  simp [List.getD_eq_getElem?_getD, List.getElem?_set, h]

theorem getD_set_other (l : List (List Nat)) (i j : Nat) (a : List Nat) (h : i ≠ j) :
    (l.set i a).getD j [] = l.getD j [] := by
  simp [List.getD_eq_getElem?_getD, List.getElem?_set, h]

/-- After `i` successful rounds every block below `i` holds what `compress`
stored in its round, and every other block is as it was before the pass. -/
theorem mix_upto_blocks {BS : Type} (env : primitives BS) (hc : compress_exact env)
    (s : hash_state BS) (hs : buffer_sized env s) (i : Nat) :
    i ≤ s.n_blocks → (mix_upto env s i).status = outcome.returned 0 →
      buffer_sized env (mix_upto env s i).state ∧
      (∀ j : Nat, j < i →
        (blocks_of (mix_upto env s i).state).getD j [] =
          (env.compress s.opts.comp (compress_inputs env (mix_upto env s j).state j)).2) ∧
      (∀ j : Nat, i ≤ j →
        (blocks_of (mix_upto env s i).state).getD j [] = (blocks_of s).getD j []) := by
  induction i with
  | zero =>
    intro _ _
    exact ⟨hs, fun j hj => absurd hj (by omega), fun j _ => rfl⟩
  | succ i ih =>
    intro hi hok
    have hprev := mix_upto_ok_before env s (i + 1) i (by omega) hok
    obtain ⟨hsz, hlow, hhigh⟩ := ih (by omega) hprev
    have hf := mix_upto_fields env s i
    have hsucc := mix_upto_succ env s i hprev
    have hbst : (mix_block env (mix_upto env s i).state i).status = outcome.returned 0 := by
      rw [hsucc] at hok
      exact hok
    have hd := mix_block_draws_ok_of_status env _ i hbst
    have hset := mix_block_sets_block env hc (mix_upto env s i).state hsz i
      (by rw [hf.1]; omega) hd
    have hstate : (mix_upto env s (i + 1)).state =
        (mix_block env (mix_upto env s i).state i).state := by rw [hsucc]
    rw [hstate, hset.1, hf.2.2.1]
    refine ⟨hset.2, ?_, ?_⟩
    · intro j hj
      by_cases hji : j = i
      · subst hji
        exact getD_set_self _ _ _ (by rw [blocks_of_length, hf.1]; omega)
      · rw [getD_set_other _ _ _ _ (fun h => hji h.symm)]
        exact hlow j (by omega)
    · intro j hj
      rw [getD_set_other _ _ _ _ (by omega)]
      exact hhigh j (by omega)

/-- C19: let the buffer be an allocation of `n_blocks` blocks and `compress`
store one block per call.  If the rounds of the blocks before block `i`
succeed and in the round of block `i` a draw fails (after `k` successful
draws), then on return of `hash_state_mix` every block below `i` holds the
value `compress` stored in its round, every block from `i` on is as it was
before the call, the stream is the one the failing draw left (after the draws
of the earlier rounds and the `k` draws of this one), the status is that of
the failing draw, and `has_mixed` keeps its value. -/
theorem mix_not_atomic {BS : Type} (env : primitives BS) (hc : compress_exact env)
    (s : hash_state BS) (hs : buffer_sized env s) (i : Nat) (hi : i < s.n_blocks)
    (hprev : (mix_upto env s i).status = outcome.returned 0) (e : Int) (he : e ≠ 0)
    (k togo : Nat) (hcount : k + 1 + togo = n_blocks_to_hash s - 2)
    (hk1 : (pick_neighbors env s.n_blocks k (mix_upto env s i).state.bstream).error = 0)
    (hk2 : (env.bitstream_rand_int
      (pick_neighbors env s.n_blocks k (mix_upto env s i).state.bstream).bstream
      s.n_blocks).1 = e) :
    (hash_state_mix env s).status = outcome.returned e ∧
    (∀ j : Nat, j < i →
      (blocks_of (hash_state_mix env s).state).getD j [] =
        (env.compress s.opts.comp (compress_inputs env (mix_upto env s j).state j)).2) ∧
    (∀ j : Nat, i ≤ j →
      (blocks_of (hash_state_mix env s).state).getD j [] = (blocks_of s).getD j []) ∧
    (hash_state_mix env s).state.buffer = (mix_upto env s i).state.buffer ∧
    (hash_state_mix env s).state.bstream =
      (env.bitstream_rand_int
        (pick_neighbors env s.n_blocks k (mix_upto env s i).state.bstream).bstream
        s.n_blocks).2.1 ∧
    (hash_state_mix env s).state.has_mixed = s.has_mixed := by
  have hf := mix_upto_fields env s i
  have hnh := n_blocks_to_hash_congr s (mix_upto env s i).state hf.2.2.1
  have hp := pick_neighbors_first_failure env s.n_blocks e he k togo _ hk1 hk2
  rw [hcount] at hp
  have hderr : (pick_neighbors env (mix_upto env s i).state.n_blocks
      (n_blocks_to_hash (mix_upto env s i).state - 2)
      (mix_upto env s i).state.bstream).error ≠ 0 := by
    rw [hf.1, hnh, hp.1]
    exact he
  have hb := mix_block_of_draws_failed env (mix_upto env s i).state i hderr
  have hfail : (mix_block env (mix_upto env s i).state i).status ≠ outcome.returned 0 := by
    rw [hb]
    intro hc2
    injection hc2 with hc2
    exact hderr hc2
  have hm := mix_of_failed_round env s i hi hprev hfail
  have hstatus : (hash_state_mix env s).status = outcome.returned e := by
    rw [hm, hb]
    simp only []
    rw [hf.1, hnh, hp.1]
  have hstate : (hash_state_mix env s).state =
      { (mix_upto env s i).state with
        bstream := (pick_neighbors env (mix_upto env s i).state.n_blocks
          (n_blocks_to_hash (mix_upto env s i).state - 2)
          (mix_upto env s i).state.bstream).bstream } := by
    rw [hm, hb]
  have hblocks : blocks_of (hash_state_mix env s).state =
      blocks_of (mix_upto env s i).state := by
    apply blocks_of_congr <;> rw [hstate]
  obtain ⟨_, hlow, hhigh⟩ := mix_upto_blocks env hc s hs i (by omega) hprev
  refine ⟨hstatus, ?_, ?_, ?_, ?_, ?_⟩
  · intro j hj
    rw [hblocks]
    exact hlow j hj
  · intro j hj
    rw [hblocks]
    exact hhigh j hj
  · rw [hstate]
  · rw [hstate]
    simp only []
    rw [hf.1, hnh, hp.2.1]
  · rw [hstate]
    exact hf.2.2.2.1

theorem faulty_compress_exact (bad_draw : Nat) (seed_status compress_status free_status : Int) :
    compress_exact (faulty_primitives bad_draw seed_status compress_status free_status) := by
  intro c blocks
  simp [faulty_primitives, toy_env, toy_primitives]

theorem toy_state_buffer_sized (bad_draw : Nat) (seed_status compress_status free_status : Int)
    (n k : Nat) (mixed : Bool) (hn : n < SIZE_MOD) :
    buffer_sized (faulty_primitives bad_draw seed_status compress_status free_status)
      (toy_state n k mixed) := by
  refine ⟨⟨List.range n, rfl, ?_⟩, ?_, rfl⟩
  · simp [toy_state]
  · simpa [toy_state] using hn

/-- C19 at a concrete state of four blocks with three neighbours: the draw
made at stream counter 4, the second draw of block 1, fails; block 0 holds its
new value 11, the blocks 1, 2 and 3 hold their old values, and the stream
counter is 5. -/
theorem mix_not_atomic_witness :
    compress_exact (faulty_primitives 4 0 0 0) ∧
    buffer_sized (faulty_primitives 4 0 0 0) (toy_state 4 3 false) ∧
    (mix_upto (faulty_primitives 4 0 0 0) (toy_state 4 3 false) 1).status
      = outcome.returned 0 ∧
    (hash_state_mix (faulty_primitives 4 0 0 0) (toy_state 4 3 false)).status
      = outcome.returned 7 ∧
    (blocks_of (hash_state_mix (faulty_primitives 4 0 0 0)
      (toy_state 4 3 false)).state).getD 0 [] = [11] ∧
    (blocks_of (hash_state_mix (faulty_primitives 4 0 0 0)
      (toy_state 4 3 false)).state).getD 1 [] = [1] ∧
    (blocks_of (hash_state_mix (faulty_primitives 4 0 0 0)
      (toy_state 4 3 false)).state).getD 3 [] = [3] ∧
    (hash_state_mix (faulty_primitives 4 0 0 0) (toy_state 4 3 false)).state.bstream = 5 ∧
    (hash_state_mix (faulty_primitives 4 0 0 0) (toy_state 4 3 false)).state.has_mixed
      = false :=
  ⟨faulty_compress_exact 4 0 0 0, toy_state_buffer_sized 4 0 0 0 4 3 false (by decide),
    by decide,
    (mix_not_atomic (faulty_primitives 4 0 0 0) (faulty_compress_exact 4 0 0 0)
      (toy_state 4 3 false) (toy_state_buffer_sized 4 0 0 0 4 3 false (by decide)) 1
      (by decide) (by decide) 7 (by decide) 1 1 (by decide) (by decide) (by decide)).1,
    ((mix_not_atomic (faulty_primitives 4 0 0 0) (faulty_compress_exact 4 0 0 0)
      (toy_state 4 3 false) (toy_state_buffer_sized 4 0 0 0 4 3 false (by decide)) 1
      (by decide) (by decide) 7 (by decide) 1 1 (by decide) (by decide) (by decide)).2.1
      0 (by decide)).trans (by decide),
    ((mix_not_atomic (faulty_primitives 4 0 0 0) (faulty_compress_exact 4 0 0 0)
      (toy_state 4 3 false) (toy_state_buffer_sized 4 0 0 0 4 3 false (by decide)) 1
      (by decide) (by decide) 7 (by decide) 1 1 (by decide) (by decide) (by decide)).2.2.1
      1 (by decide)).trans (by decide),
    ((mix_not_atomic (faulty_primitives 4 0 0 0) (faulty_compress_exact 4 0 0 0)
      (toy_state 4 3 false) (toy_state_buffer_sized 4 0 0 0 4 3 false (by decide)) 1
      (by decide) (by decide) 7 (by decide) 1 1 (by decide) (by decide) (by decide)).2.2.1
      3 (by decide)).trans (by decide),
    ((mix_not_atomic (faulty_primitives 4 0 0 0) (faulty_compress_exact 4 0 0 0)
      (toy_state 4 3 false) (toy_state_buffer_sized 4 0 0 0 4 3 false (by decide)) 1
      (by decide) (by decide) 7 (by decide) 1 1 (by decide) (by decide)
      (by decide)).2.2.2.2.1).trans (by decide),
    (mix_not_atomic (faulty_primitives 4 0 0 0) (faulty_compress_exact 4 0 0 0)
      (toy_state 4 3 false) (toy_state_buffer_sized 4 0 0 0 4 3 false (by decide)) 1
      (by decide) (by decide) 7 (by decide) 1 1 (by decide) (by decide)
      (by decide)).2.2.2.2.2⟩

/-! ## The draws of a whole pass -/

theorem reference_draws_add {BS : Type} (env : primitives BS) (n a b : Nat) :
    ∀ st : BS, reference_draws env n (a + b) st =
      ((reference_draws env n a st).1 ++
          (reference_draws env n b (reference_draws env n a st).2).1,
        (reference_draws env n b (reference_draws env n a st).2).2) := by
  induction a with
  | zero => intro st; simp [reference_draws]
  | succ a ih =>
    intro st
    have e : a + 1 + b = (a + b) + 1 := by omega
    rw [e]
    simp only [reference_draws]
    rw [ih]
    simp

theorem pick_neighbors_stream {BS : Type} (env : primitives BS) (max count : Nat) :
    ∀ st : BS, (pick_neighbors env max count st).error = 0 →
      (pick_neighbors env max count st).neighbors = (reference_draws env max count st).1 ∧
      (pick_neighbors env max count st).bstream = (reference_draws env max count st).2 ∧
      (∀ m : Nat, event.rand_int m ∈ (pick_neighbors env max count st).trace → m = max) := by
  induction count with
  | zero =>
    intro st _
    simp [pick_neighbors, reference_draws]
  | succ k ih =>
    intro st h
    simp only [pick_neighbors] at h ⊢
    split_ifs at h ⊢ with h1
    · exact absurd h h1
    · have h2 := ih _ h
      simp only [reference_draws]
      refine ⟨by rw [h2.1], h2.2.1, ?_⟩
      intro m hm
      simp only [List.mem_cons, event.rand_int.injEq] at hm
      rcases hm with hm | hm | hm
      · exact hm
      · cases hm
      · exact h2.2.2 m hm

theorem mix_block_of_status_ok {BS : Type} (env : primitives BS) (s : hash_state BS)
    (i : Nat) (h : (mix_block env s i).status = outcome.returned 0) :
    (pick_neighbors env s.n_blocks (n_blocks_to_hash s - 2) s.bstream).error = 0 ∧
    s.block_size = env.compress_block_size s.opts.comp := by
  have hd := mix_block_draws_ok_of_status env s i h
  refine ⟨hd, ?_⟩
  by_contra hc
  unfold mix_block at h
  simp only [] at h
  rw [if_neg (not_not.2 hd), if_pos hc] at h
  cases h

theorem mem_cur_prev_not_draw {BS : Type} (s : hash_state BS) (i m : Nat) :
    event.rand_int m ∉ cur_prev_trace s i := by
  unfold cur_prev_trace
  split_ifs <;> simp

/-- When the sum `n_neighbors + 2` does not wrap, `i` successful rounds make
`i * n_neighbors` draws, all with bound `n_blocks`, on the one stream of the
hash state. -/
theorem mix_upto_draws {BS : Type} (env : primitives BS) (s : hash_state BS)
    (hk : s.opts.n_neighbors + 2 < UINT_MOD) (i : Nat) :
    (mix_upto env s i).status = outcome.returned 0 →
      (mix_upto env s i).state.bstream =
        (reference_draws env s.n_blocks (i * s.opts.n_neighbors) s.bstream).2 ∧
      count_draws (mix_upto env s i).trace = i * s.opts.n_neighbors ∧
      (∀ m : Nat, event.rand_int m ∈ (mix_upto env s i).trace → m = s.n_blocks) := by
  induction i with
  | zero =>
    intro _
    refine ⟨by simp [mix_upto, reference_draws], by simp [mix_upto, count_draws], ?_⟩
    intro m hm
    simp [mix_upto] at hm
  | succ i ih =>
    intro hok
    have hprev := mix_upto_ok_before env s (i + 1) i (by omega) hok
    obtain ⟨hst, hcnt, hbound⟩ := ih hprev
    have hf := mix_upto_fields env s i
    have hsucc := mix_upto_succ env s i hprev
    have hbst : (mix_block env (mix_upto env s i).state i).status = outcome.returned 0 := by
      rw [hsucc] at hok
      exact hok
    obtain ⟨hd, hbs⟩ := mix_block_of_status_ok env _ i hbst
    have hb := mix_block_of_draws_ok env _ i hd hbs
    have hk2 : (mix_upto env s i).state.opts.n_neighbors + 2 < UINT_MOD := by
      rw [hf.2.2.1]; exact hk
    have hcount : n_blocks_to_hash (mix_upto env s i).state - 2 = s.opts.n_neighbors := by
      rw [n_blocks_to_hash_eq _ hk2, hf.2.2.1]
      omega
    rw [hcount, hf.1] at hd hb
    have hp := pick_neighbors_stream env s.n_blocks s.opts.n_neighbors _ hd
    have hpc := pick_neighbors_count env s.n_blocks s.opts.n_neighbors _ hd
    have hmul : (i + 1) * s.opts.n_neighbors = i * s.opts.n_neighbors + s.opts.n_neighbors := by
      ring
    rw [hsucc, hb]
    simp only []
    refine ⟨?_, ?_, ?_⟩
    · rw [(write_block_fields _ _ _).2.2.2.2.1]
      simp only []
      rw [hp.2.1, hst, hmul, reference_draws_add]
    · rw [count_draws_append, count_draws_append, count_draws_append, hcnt,
        count_draws_cur_prev, hpc.1, hmul]
      simp [count_draws]
    · intro m hm
      rcases List.mem_append.1 hm with hm | hm
      · exact hbound m hm
      · rcases List.mem_append.1 hm with hm | hm
        · rcases List.mem_append.1 hm with hm | hm
          · exact absurd hm (mem_cur_prev_not_draw _ _ _)
          · exact hp.2.2 m hm
        · simp at hm

theorem mix_upto_ok_of_mix_ok {BS : Type} (env : primitives BS) (s : hash_state BS)
    (hok : (hash_state_mix env s).status = outcome.returned ERROR_NONE) :
    (mix_upto env s s.n_blocks).status = outcome.returned 0 ∧
    (hash_state_mix env s).state =
      { (mix_upto env s s.n_blocks).state with has_mixed := true } ∧
    (hash_state_mix env s).trace = (mix_upto env s s.n_blocks).trace := by
  by_cases h : (mix_upto env s s.n_blocks).status = outcome.returned 0
  · have hm := mix_eq_upto env s
    rw [if_pos h] at hm
    rw [hm]
    exact ⟨h, rfl, rfl⟩
  · have hm := mix_eq_upto env s
    rw [if_neg h] at hm
    rw [hm] at hok
    exact absurd hok h

/-- When the sum `n_neighbors + 2` does not wrap, a successful pass advances
the stream of the hash state by `n_blocks * n_neighbors` draws, each with
bound `n_blocks`. -/
theorem mix_draws {BS : Type} (env : primitives BS) (s : hash_state BS)
    (hk : s.opts.n_neighbors + 2 < UINT_MOD)
    (hok : (hash_state_mix env s).status = outcome.returned ERROR_NONE) :
    (hash_state_mix env s).state.bstream =
      (reference_draws env s.n_blocks (s.n_blocks * s.opts.n_neighbors) s.bstream).2 ∧
    count_draws (hash_state_mix env s).trace = s.n_blocks * s.opts.n_neighbors ∧
    (∀ m : Nat, event.rand_int m ∈ (hash_state_mix env s).trace → m = s.n_blocks) := by
  obtain ⟨h0, hst, htr⟩ := mix_upto_ok_of_mix_ok env s hok
  have h := mix_upto_draws env s hk s.n_blocks h0
  rw [hst, htr]
  exact h

/-- When the sum `n_neighbors + 2` does not wrap, `t` successful passes in a
row advance the one stream of the hash state by `t * n_blocks * n_neighbors`
draws with bound `n_blocks`. -/
theorem mix_repeat_draws {BS : Type} (env : primitives BS) (t : Nat) :
    ∀ s : hash_state BS, s.opts.n_neighbors + 2 < UINT_MOD →
      (mix_repeat env t s).1 = outcome.returned ERROR_NONE →
      (mix_repeat env t s).2.bstream =
        (reference_draws env s.n_blocks (t * (s.n_blocks * s.opts.n_neighbors))
          s.bstream).2 := by
  induction t with
  | zero =>
    intro s _ _
    simp [mix_repeat, reference_draws]
  | succ t ih =>
    intro s hk hok
    simp only [mix_repeat] at hok ⊢
    by_cases h : (hash_state_mix env s).status = outcome.returned 0
    · rw [if_neg (not_not.2 h)] at hok ⊢
      have hf := mix_loop_fields env s.n_blocks 0 s
      have hd := mix_draws env s hk h
      have h2 := ih (hash_state_mix env s).state
        (by unfold hash_state_mix; rw [hf.2.2.1]; exact hk) hok
      have e1 : (hash_state_mix env s).state.n_blocks = s.n_blocks := hf.1
      have e2 : (hash_state_mix env s).state.opts = s.opts := hf.2.2.1
      rw [e1, e2, hd.1] at h2
      have hmul : (t + 1) * (s.n_blocks * s.opts.n_neighbors) =
          s.n_blocks * s.opts.n_neighbors + t * (s.n_blocks * s.opts.n_neighbors) := by
        ring
      rw [hmul, reference_draws_add]
      exact h2
    · rw [if_pos h] at hok
      simp only [] at hok
      exact absurd hok h

/-- C15: at the top of the range of `n_neighbors` a successful pass does not
advance the stream by `n_blocks * n_neighbors` draws.  With
`n_neighbors = 4294967295` the sum `n_neighbors + 2` wraps to 1: the pass over
four blocks succeeds without a single draw and leaves the stream where it
was, whereas `4 * 4294967295` draws would leave its counter at
17179869180. -/
theorem mix_draw_count_wraps :
    (hash_state_mix toy_env (toy_state 4 4294967295 false)).status
      = outcome.returned ERROR_NONE ∧
    count_draws (hash_state_mix toy_env (toy_state 4 4294967295 false)).trace = 0 ∧
    (toy_state 4 4294967295 false).n_blocks * (toy_state 4 4294967295 false).opts.n_neighbors
      = 17179869180 ∧
    (hash_state_mix toy_env (toy_state 4 4294967295 false)).state.bstream
      = (toy_state 4 4294967295 false).bstream ∧
    (reference_draws toy_env 4 17179869180 (toy_state 4 4294967295 false).bstream).2
      = 17179869180 ∧
    (hash_state_mix toy_env (toy_state 4 4294967295 false)).state.bstream ≠
      (reference_draws toy_env (toy_state 4 4294967295 false).n_blocks
        ((toy_state 4 4294967295 false).n_blocks *
          (toy_state 4 4294967295 false).opts.n_neighbors)
        (toy_state 4 4294967295 false).bstream).2 := by
  have hcode : (hash_state_mix toy_env (toy_state 4 4294967295 false)).state.bstream
      = (toy_state 4 4294967295 false).bstream := by decide
  refine ⟨by decide, by decide, by decide, hcode, ?_, ?_⟩
  · rw [toy_reference_draws_stream]
    decide
  · rw [hcode, toy_reference_draws_stream]
    decide

/-! ## What a round reads -/

theorem well_sized_buffer_sized {BS : Type} (env : primitives BS) (s : hash_state BS)
    (hs : well_sized env s) : buffer_sized env s :=
  ⟨hs.1, hs.2.1, hs.2.2.1⟩

/-- When neither the buffer size nor the sum `n_neighbors + 2` wraps, the
blocks a round hands to `compress` are the previous block, block `i` and the
blocks at the indices drawn, as the buffer holds them at the start of the
round. -/
theorem compress_inputs_eq {BS : Type} (env : primitives BS) (hr : rand_int_below env)
    (s : hash_state BS) (hs : well_sized env s) (i : Nat) (hi : i < s.n_blocks)
    (hd : (pick_neighbors env s.n_blocks (n_blocks_to_hash s - 2) s.bstream).error = 0) :
    compress_inputs env s i =
      (if i = 0 then (blocks_of s).getD (s.n_blocks - 1) []
        else (blocks_of s).getD (i - 1) []) ::
      (blocks_of s).getD i [] ::
      (reference_draws env s.n_blocks s.opts.n_neighbors s.bstream).1.map
        (fun r => (blocks_of s).getD r []) := by
  obtain ⟨_, hov, _, hk⟩ := hs
  have hcount := n_blocks_to_hash_eq s hk
  have hsub : n_blocks_to_hash s - 2 = s.opts.n_neighbors := by omega
  rw [hsub] at hd
  have hp := pick_neighbors_reference env hr s.n_blocks s.opts.n_neighbors s.bstream hd
  unfold compress_inputs
  rw [hsub]
  have htake : List.take (n_blocks_to_hash s)
      ([prev_block s i, block_index s i] ++
        List.map (block_index s)
          (pick_neighbors env s.n_blocks s.opts.n_neighbors s.bstream).neighbors) =
      [prev_block s i, block_index s i] ++
        List.map (block_index s)
          (pick_neighbors env s.n_blocks s.opts.n_neighbors s.bstream).neighbors := by
    apply List.take_of_length_le
    simp only [List.length_append, List.length_map, List.length_cons, List.length_nil]
    rw [hp.2.2.1, hcount]
    omega
  rw [htake, ← hp.1]
  simp only [List.cons_append, List.nil_append, List.map_cons, List.map_map]
  have hcur := block_index_eq s hov i hi
  have hprev := prev_block_index s hov i hi
  congr 1
  · rw [hprev]
    split_ifs with h0
    · exact (blocks_of_getD s _ (by omega)).symm
    · exact (blocks_of_getD s _ (by omega)).symm
  · congr 1
    · rw [hcur]
      exact (blocks_of_getD s _ hi).symm
    · apply List.map_congr_left
      intro r hrm
      have hlt := hp.2.2.2 r hrm
      simp only [Function.comp]
      rw [block_index_eq s hov r hlt]
      exact (blocks_of_getD s _ hlt).symm

/-- When neither the buffer size nor the sum `n_neighbors + 2` wraps, a
successful pass computes block `i` from blocks it has already overwritten:
with `old` the blocks before the pass and `new` the blocks after it,
`new[i]` is `compress` of the previous block (`old[n_blocks - 1]` for
`i = 0`, `new[i - 1]` otherwise), `old[i]`, and for each index `r` drawn in
the round `new[r]` if `r < i` and `old[r]` otherwise. -/
theorem mix_reads_updated_blocks {BS : Type} (env : primitives BS)
    (hr : rand_int_below env) (hc : compress_exact env) (s : hash_state BS)
    (hs : well_sized env s)
    (hok : (hash_state_mix env s).status = outcome.returned ERROR_NONE)
    (i : Nat) (hi : i < s.n_blocks) :
    (blocks_of (hash_state_mix env s).state).getD i [] =
      (env.compress s.opts.comp
        ((if i = 0 then (blocks_of s).getD (s.n_blocks - 1) []
            else (blocks_of (hash_state_mix env s).state).getD (i - 1) []) ::
          (blocks_of s).getD i [] ::
          (reference_draws env s.n_blocks s.opts.n_neighbors
            (mix_upto env s i).state.bstream).1.map
            (fun r => if r < i then (blocks_of (hash_state_mix env s).state).getD r []
              else (blocks_of s).getD r []))).2 := by
  obtain ⟨h0, hst, _⟩ := mix_upto_ok_of_mix_ok env s hok
  have hbsz := well_sized_buffer_sized env s hs
  have hnew : blocks_of (hash_state_mix env s).state =
      blocks_of (mix_upto env s s.n_blocks).state := by
    apply blocks_of_congr <;> rw [hst]
  obtain ⟨_, hall, _⟩ := mix_upto_blocks env hc s hbsz s.n_blocks (Nat.le_refl _) h0
  have hprev := mix_upto_ok_before env s s.n_blocks i (by omega) h0
  have hnext := mix_upto_ok_before env s s.n_blocks (i + 1) (by omega) h0
  obtain ⟨hsz, hlow, hhigh⟩ := mix_upto_blocks env hc s hbsz i (by omega) hprev
  have hf := mix_upto_fields env s i
  have hbst : (mix_block env (mix_upto env s i).state i).status = outcome.returned 0 := by
    rw [mix_upto_succ env s i hprev] at hnext
    exact hnext
  have hd := (mix_block_of_status_ok env _ i hbst).1
  have hws : well_sized env (mix_upto env s i).state :=
    ⟨hsz.1, hsz.2.1, hsz.2.2, by rw [hf.2.2.1]; exact hs.2.2.2⟩
  have hin := compress_inputs_eq env hr (mix_upto env s i).state hws i
    (by rw [hf.1]; exact hi) hd
  rw [hf.1, hf.2.2.1] at hin
  rw [hnew, hall i hi, hin]
  have hold_i := hhigh i (Nat.le_refl _)
  have hfirst : (if i = 0 then (blocks_of (mix_upto env s i).state).getD (s.n_blocks - 1) []
      else (blocks_of (mix_upto env s i).state).getD (i - 1) []) =
      (if i = 0 then (blocks_of s).getD (s.n_blocks - 1) []
        else (blocks_of (mix_upto env s s.n_blocks).state).getD (i - 1) []) := by
    split_ifs with hi0
    · exact hhigh _ (by omega)
    · rw [hlow (i - 1) (by omega), hall (i - 1) (by omega)]
  have hmap : (fun r => (blocks_of (mix_upto env s i).state).getD r []) =
      (fun r => if r < i then (blocks_of (mix_upto env s s.n_blocks).state).getD r []
        else (blocks_of s).getD r []) := by
    funext r
    split_ifs with hri
    · rw [hlow r hri, hall r (by omega)]
    · exact hhigh r (by omega)
  rw [hfirst, hold_i, hmap]

/-- C14: at the top of the range of `n_neighbors` the new value of a block is
not `compress` of a list that starts with the previous block and the old
value of the block.  With `n_neighbors = 4294967295` the sum
`n_neighbors + 2` wraps to 1: in a successful pass over four blocks (an even
count, as `hash_state_init` stores it) block 0 becomes `compress` of the old
last block alone, and block 1 `compress` of the new block 0 alone; the old
values of the blocks 0 and 1 are not read.  The same happens in the first
pass over the state that `hash_state_init` and `hash_state_fill` leave for
these options. -/
theorem mix_wraps_compress_inputs :
    (hash_state_mix toy_env (toy_state 4 4294967295 false)).status
      = outcome.returned ERROR_NONE ∧
    blocks_of (toy_state 4 4294967295 false) = [[0], [1], [2], [3]] ∧
    blocks_of (hash_state_mix toy_env (toy_state 4 4294967295 false)).state
      = [[4], [5], [6], [7]] ∧
    compress_inputs toy_env (mix_upto toy_env (toy_state 4 4294967295 false) 0).state 0
      = [[3]] ∧
    (toy_env.compress (toy_state 4 4294967295 false).opts.comp [[3]]).2 = [4] ∧
    compress_inputs toy_env (mix_upto toy_env (toy_state 4 4294967295 false) 1).state 1
      = [[4]] ∧
    (toy_env.compress (toy_state 4 4294967295 false).opts.comp [[4]]).2 = [5] ∧
    (∀ rest : List (List Nat),
      compress_inputs toy_env (mix_upto toy_env (toy_state 4 4294967295 false) 0).state 0 ≠
        (blocks_of (toy_state 4 4294967295 false)).getD 3 [] ::
          (blocks_of (toy_state 4 4294967295 false)).getD 0 [] :: rest) ∧
    (hash_state_init toy_env (stale_state 7) (toy_options 4 1 4294967295) [1, 2]
      (toy_malloc 9)).status = outcome.returned ERROR_NONE ∧
    (hash_state_fill toy_env
      (hash_state_init toy_env (stale_state 7) (toy_options 4 1 4294967295) [1, 2]
        (toy_malloc 9)).state [5] [1, 2]).status = outcome.returned ERROR_NONE ∧
    (hash_state_fill toy_env
      (hash_state_init toy_env (stale_state 7) (toy_options 4 1 4294967295) [1, 2]
        (toy_malloc 9)).state [5] [1, 2]).state.n_blocks = 4 ∧
    blocks_of (hash_state_fill toy_env
      (hash_state_init toy_env (stale_state 7) (toy_options 4 1 4294967295) [1, 2]
        (toy_malloc 9)).state [5] [1, 2]).state = [[15], [19], [20], [21]] ∧
    compress_inputs toy_env (hash_state_fill toy_env
      (hash_state_init toy_env (stale_state 7) (toy_options 4 1 4294967295) [1, 2]
        (toy_malloc 9)).state [5] [1, 2]).state 0 = [[21]] ∧
    blocks_of (hash_state_mix toy_env (hash_state_fill toy_env
      (hash_state_init toy_env (stale_state 7) (toy_options 4 1 4294967295) [1, 2]
        (toy_malloc 9)).state [5] [1, 2]).state).state = [[22], [23], [24], [25]] := by
  have h0 : compress_inputs toy_env
      (mix_upto toy_env (toy_state 4 4294967295 false) 0).state 0 = [[3]] := by decide
  refine ⟨by decide, by decide, by decide, h0, by decide, by decide, by decide, ?_,
    by decide, by decide, by decide, by decide, by decide, by decide⟩
  intro rest hc
  rw [h0] at hc
  have hl := congrArg List.length hc
  simp at hl

/-! ## Runs that stay inside the buffer -/

/-- The hypotheses on the options are needed for a run to stay inside the
buffer: when the derived block count is zero, `hash_state_init` returns
`ERROR_NONE` with a buffer of no bytes, and the calls that follow leave it. -/
theorem zero_blocks_run_leaves_buffer :
    init_n_blocks (toy_primitives (fun _ => 0) 1) (toy_options 0 1 1) = 0 ∧
    (hash_state_init (toy_primitives (fun _ => 0) 1) (stale_state 7) (toy_options 0 1 1)
      [1, 2] (toy_malloc 9)).status = outcome.returned ERROR_NONE ∧
    buffer_bytes (hash_state_init (toy_primitives (fun _ => 0) 1) (stale_state 7)
      (toy_options 0 1 1) [1, 2] (toy_malloc 9)).state = [] ∧
    ¬ pipeline_in_bounds (toy_primitives (fun _ => 0) 1) (stale_state 7)
      (toy_options 0 1 1) [5] [1, 2] 4 (toy_malloc 9) := by
  refine ⟨by decide, by decide, by decide, fun h => ?_⟩
  exact (h (by decide)).1.2.1 (by decide)

/-- The hypotheses on the options are needed for a run to stay inside the
buffer: when the size in bytes wraps to zero, `hash_state_init` returns
`ERROR_NONE` with a buffer of no bytes for 9223372036854775808 blocks of two
bytes, and the calls that follow leave it. -/
theorem wrapped_size_run_leaves_buffer :
    init_n_blocks (toy_primitives (fun _ => 9223372036854775808) 2) (toy_options 1 1 1)
      = 9223372036854775808 ∧
    init_size (toy_primitives (fun _ => 9223372036854775808) 2) (toy_options 1 1 1) = 0 ∧
    (hash_state_init (toy_primitives (fun _ => 9223372036854775808) 2) (stale_state 7)
      (toy_options 1 1 1) [1, 2] (toy_malloc 9)).status = outcome.returned ERROR_NONE ∧
    buffer_bytes (hash_state_init (toy_primitives (fun _ => 9223372036854775808) 2)
      (stale_state 7) (toy_options 1 1 1) [1, 2] (toy_malloc 9)).state = [] ∧
    ¬ pipeline_in_bounds (toy_primitives (fun _ => 9223372036854775808) 2) (stale_state 7)
      (toy_options 1 1 1) [5] [1, 2] 4 (toy_malloc 9) := by
  refine ⟨by decide, by decide, by decide, by decide, fun h => ?_⟩
  exact absurd (h (by decide)).1.1.2.1 (by decide)

/-- The hypothesis on the neighbour count is needed as well: with
`n_neighbors = 4294967295` the array `blocks` of `hash_state_mix` has one
entry, and every round stores two pointers in it. -/
theorem wrapped_count_run_leaves_array :
    n_blocks_to_hash (hash_state_init toy_env (stale_state 7)
      (toy_options 4 1 4294967295) [1, 2] (toy_malloc 9)).state = 1 ∧
    (hash_state_init toy_env (stale_state 7) (toy_options 4 1 4294967295) [1, 2]
      (toy_malloc 9)).status = outcome.returned ERROR_NONE ∧
    ¬ pipeline_in_bounds toy_env (stale_state 7) (toy_options 4 1 4294967295) [5] [1, 2] 4
      (toy_malloc 9) := by
  refine ⟨by decide, by decide, fun h => ?_⟩
  exact absurd (h (by decide)).1.2.2.2.2.2.2 (by decide)

end Balloon
